import Mathlib

/-
  Verification of the p4est forest-serialization core (src/p4est_io.c,
  src/p8est_io.h): padding codec, section engine byte accounting, the
  deflate/inflate pair, the parallel field write, the info walker and the
  error-code classes.  Bytes are modelled as natural numbers
  (newline = 10, space = 32), machine counters as Nat/Int.
-/

namespace P4estFile

/-! ## Constants and the padding codec (src/p4est_io.c, src/p8est_io.h) -/

/-- P4EST_BYTE_DIV: all data blocks are padded to be divisible by this. -/
def byteDiv : Nat := 16

/-- P4EST_NUM_METADATA_BYTES: number of file metadata bytes. -/
def numMetadataBytes : Nat := 64

/-- P4EST_NUM_FIELD_HEADER_BYTES = 2 + P4EST_NUM_ARRAY_METADATA_BYTES (14)
    + P4EST_NUM_USER_STRING_BYTES (48): bytes of one section header. -/
def numFieldHeaderBytes : Nat := 64

/-- The newline byte used by the padding and the headers. -/
def nlByte : Nat := 10

/-- The space byte used by the padding and the fixed-width fields. -/
def spByte : Nat := 32

/-- get_padding_string (counting part): number of padding bytes appended to a
    block of numBytes bytes.  The natural remainder-to-divisor count is bumped
    by the divisor when it is 0 or 1 so that the padding can hold a leading
    and a trailing newline.  The divisor argument is P4EST_BYTE_DIV = 16 at
    every call site. -/
def padLen (numBytes : Nat) : Nat :=
  let p := (byteDiv - numBytes % byteDiv) % byteDiv
  if p = 0 ∨ p = 1 then p + byteDiv else p

/-- get_padding_string (string part): the emitted padding bytes, written by
    snprintf as a newline, padLen - 2 spaces and a final newline. -/
def padBytes (numBytes : Nat) : List Nat :=
  nlByte :: (List.replicate (padLen numBytes - 2) spByte ++ [nlByte])

/-! ## Section byte encoding -/

/-- The 13-byte zero-padded decimal rendering of a data size, most significant
    digit first, as produced by the snprintf format string of the section
    headers.  Faithful for sizes below 10^13 (larger sizes would overflow the
    fixed-width field). -/
def decDigits13 (n : Nat) : List Nat :=
  (List.range 13).reverse.map (fun i => 48 + n / 10 ^ i % 10)

/-- A user string padded with spaces to the 47 characters written into a
    section header. -/
def userString47 (u : List Nat) : List Nat :=
  u ++ List.replicate (47 - u.length) spByte

/-- The 64-byte section header: type byte, space, 13 decimal digits, newline,
    the space-padded 47-byte user string, newline.  Matches the source format
    string of p4est_file_write_header and p4est_file_write_field. -/
def sectionHeaderBytes (btype : Nat) (dataSize : Nat) (u : List Nat) : List Nat :=
  btype :: spByte :: (decDigits13 dataSize ++ [nlByte] ++ userString47 u ++ [nlByte])

/-- A data section of the file: a header block (type byte 72, the character H)
    holding one opaque blob, or a field block (type byte 70, the character F)
    holding one record of elemSize bytes per global quadrant. -/
inductive DataSection
| hblock (data : List Nat) (user : List Nat)
| fblock (elemSize : Nat) (globalData : List Nat) (user : List Nat)
deriving DecidableEq

/-- The type byte stored in a section header. -/
def DataSection.btype : DataSection → Nat
| hblock _ _ => 72
| fblock _ _ _ => 70

/-- The data size stored in a section header: the blob size for an H block,
    the per-quadrant record size for an F block. -/
def DataSection.dataSize : DataSection → Nat
| hblock d _ => d.length
| fblock s _ _ => s

/-- The payload bytes of a section. -/
def DataSection.payload : DataSection → List Nat
| hblock d _ => d
| fblock _ g _ => g

/-- The padded user string of a section. -/
def DataSection.user : DataSection → Nat → Nat
| hblock _ u, i => u.getD i 0
| fblock _ _ u, i => u.getD i 0

/-- The user string list of a section. -/
def DataSection.userStr : DataSection → List Nat
| hblock _ u => u
| fblock _ _ u => u

/-- Payload length of a section as laid out in the file. -/
def DataSection.payloadLen (sec : DataSection) : Nat := sec.payload.length

/-- A section is well formed for a file of gnq global quadrants when its data
    size fits the fixed-width decimal field, its user string is stored at the
    padded width of 47 bytes, it is not the empty section that the write
    functions skip, and a field block carries one record per global
    quadrant. -/
def DataSection.wf (gnq : Nat) : DataSection → Prop
| hblock d u => d.length < 10 ^ 13 ∧ u.length = 47 ∧ 0 < d.length
| fblock s g u => s < 10 ^ 13 ∧ u.length = 47 ∧ g.length = gnq * s ∧ 0 < s

instance (gnq : Nat) (sec : DataSection) : Decidable (sec.wf gnq) := by
  cases sec <;> dsimp [DataSection.wf] <;> infer_instance

/-- The bytes of one section: 64-byte header, payload, padding. -/
def encodeSection (sec : DataSection) : List Nat :=
  sectionHeaderBytes sec.btype sec.dataSize sec.userStr ++ sec.payload
    ++ padBytes sec.payloadLen

/-- The metadata triple reported for one section by p4est_file_info. -/
structure SectionMeta where
  btype : Nat
  dataSize : Nat
  userString : List Nat
deriving DecidableEq

/-- The metadata a well-formed section should be reported with. -/
def DataSection.meta (sec : DataSection) : SectionMeta :=
  ⟨sec.btype, sec.dataSize, sec.userStr⟩

/-! ## File prelude -/

/-- The magic string p4data0 of the 2D data files. -/
def magicBytes : List Nat := [112, 52, 100, 97, 116, 97, 48]

/-- Modelled from the spec: the 23-byte version string line of the file
    header; its content is not prescribed by the claims, only its width and
    terminating newline are. -/
def versionBytes : List Nat := List.replicate 23 spByte

/-- The 16-byte zero-padded decimal rendering of the global quadrant count in
    the file header (faithful for counts below 10^16). -/
def decDigits16 (n : Nat) : List Nat :=
  (List.range 16).reverse.map (fun i => 48 + n / 10 ^ i % 10)

/-- Modelled from the spec and the p8est_io.h file-format documentation (the
    2D macro constants P4EST_NUM_MAGIC_BYTES and P4EST_NUM_VERSION_STR_BYTES
    live in the 2D header that is not under src): the 64-byte file header is
    the 7-byte magic and newline, the 23-byte version string and newline, the
    15-byte space-padded user string and newline, and the 16-digit global
    quadrant count. -/
def fileHeaderBytes (userStr : List Nat) (gnq : Nat) : List Nat :=
  magicBytes ++ [nlByte] ++ versionBytes ++ [nlByte]
    ++ (userStr ++ List.replicate (15 - userStr.length) spByte) ++ [nlByte]
    ++ decDigits16 gnq

/-- The 80-byte file prelude: the file header followed by the fixed 16-byte
    padding (newline, 14 spaces, newline). -/
def preludeBytes (userStr : List Nat) (gnq : Nat) : List Nat :=
  fileHeaderBytes userStr gnq ++ (nlByte :: (List.replicate 14 spByte ++ [nlByte]))

/-! ## File context and the section engine -/

/-- The byte-accounting state of struct p4est_file_context: the cursor
    accessed_bytes counting section bytes past the 80-byte prelude, and the
    completed-operation counter num_calls.  The remaining fields of the C
    struct (communicator, file handle, partition) appear as parameters of the
    operations below. -/
structure FileContext where
  accessedBytes : Nat
  numCalls : Nat
deriving DecidableEq

/-- sc_io_write_at: overwrite the file bytes from the given absolute offset
    with the data, extending the file as needed (a gap, which never occurs in
    the modelled call sites, reads as zero bytes). -/
def writeAt (file : List Nat) (off : Nat) (data : List Nat) : List Nat :=
  (file.take off ++ List.replicate (off - file.length) 0)
    ++ data ++ file.drop (off + data.length)

/-- sc_io_read_at: read up to n bytes from the given absolute offset; the
    returned count is the length of the result (short at end of file). -/
def readAt (file : List Nat) (off n : Nat) : List Nat :=
  (file.drop off).take n

/-- p4est_file_write_header.  For header_size 0 nothing happens and the
    context is returned unchanged with a success errcode.  Otherwise rank 0
    writes the 64-byte section header at offset 80 + accessed_bytes, the blob
    after it and the padding after that, and every rank advances the cursor
    by header_size + 64 + pad_len(header_size) and increments num_calls.
    The result is the context, the file bytes and the errcode. -/
def p4est_file_write_header (fc : FileContext) (file : List Nat)
    (headerSize : Nat) (headerData : List Nat) (user : List Nat) :
    FileContext × List Nat × Int :=
  if headerSize = 0 then (fc, file, 0)
  else
    let base := fc.accessedBytes + numMetadataBytes + byteDiv
    let f1 := writeAt file base (sectionHeaderBytes 72 headerSize user)
    let f2 := writeAt f1 (base + numFieldHeaderBytes) headerData
    let f3 := writeAt f2 (base + numFieldHeaderBytes + headerSize)
      (padBytes headerSize)
    (⟨fc.accessedBytes + (headerSize + numFieldHeaderBytes + padLen headerSize),
      fc.numCalls + 1⟩, f3, 0)

/-- p4est_file_write_field.  For elem_size 0 nothing happens and the context
    is returned unchanged with a success errcode.  Otherwise rank 0 writes
    the 64-byte field header at offset accessed + 80 + gfq[0] * s, every rank
    r writes its local slice at offset accessed + 80 + gfq[r] * s + 64
    (modelled by folding the per-rank collective writes, which touch disjoint
    regions), rank 0 writes the padding after the last record, and the cursor
    advances by elem_size * N_global + 64 + pad_len(N_global * elem_size). -/
def p4est_file_write_field (fc : FileContext) (file : List Nat)
    (numProcs : Nat) (gnq : Nat) (gfq : List Nat) (elemSize : Nat)
    (slices : List (List Nat)) (user : List Nat) :
    FileContext × List Nat × Int :=
  if elemSize = 0 then (fc, file, 0)
  else
    let base := fc.accessedBytes + numMetadataBytes + byteDiv
    let f1 := writeAt file (base + gfq.getD 0 0 * elemSize)
      (sectionHeaderBytes 70 elemSize user)
    let f2 := (List.range numProcs).foldl
      (fun f r => writeAt f (base + gfq.getD r 0 * elemSize + numFieldHeaderBytes)
        (slices.getD r [])) f1
    let f3 := writeAt f2 (base + numFieldHeaderBytes + gnq * elemSize)
      (padBytes (gnq * elemSize))
    (⟨fc.accessedBytes + (elemSize * gnq + numFieldHeaderBytes + padLen (gnq * elemSize)),
      fc.numCalls + 1⟩, f3, 0)

/-- The outcome of a read-side section operation: the surviving context state
    (none when the operation failed and freed the context), whether the C
    function returned a non-null context pointer, and the errcode. -/
structure ReadResult where
  ctx : Option FileContext
  contextReturned : Bool
  errcode : Int
deriving DecidableEq

/-- sc_MPI_SUCCESS. -/
def mpiSuccess : Int := 0

/-- P4EST_FILE_COUNT_ERROR from src/p8est_io.h: the library-specific error
    code for a read or write that transferred fewer bytes than requested. -/
def P4EST_FILE_COUNT_ERROR : Int := -1

/-- Modelled from the spec: the POSIX errno value EIO as produced by the
    backend I/O layer (errno values are positive). -/
def eioErrno : Int := 5

/-- P4EST_ERR_IO from src/p8est_io.h (name adjusted): the format-error code,
    defined in the source as EIO without MPI I/O and as sc_MPI_ERR_IO with
    it; in both cases it is the backend I/O error class itself. -/
def p4estErrFormat : Int := eioErrno

/-- Modelled from the spec: the set of error codes the MPI/POSIX backend can
    produce (positive errno values and MPI error codes; success is 0). -/
def backendErrorCodes : Set Int := {e | 0 < e}

/-- Modelled from the spec: sc_io_error_class, the backend normalization that
    maps each backend error code to its error class; for the errno backend
    the class of an errno value is the value itself. -/
def sc_io_error_class (e : Int) : Int := e

/-- p4est_file_error_code: the count error exists only on the p4est level
    and is passed through; every other code is normalized by the backend. -/
def p4est_file_error_code (errcode : Int) : Int :=
  if errcode = P4EST_FILE_COUNT_ERROR then errcode else sc_io_error_class errcode

/-- p4est_file_read_header, modelled above the already-opened stream: the
    current section of the file is a well-formed H block whose stored data
    size is storedSize; headerDataGiven records whether the header_data
    argument is non-null.  On the skip path (null data or header_size 0) the
    section metadata is parsed, the cursor advances by
    header_size + 64 + pad_len(header_size) computed from the caller-passed
    header_size, num_calls is incremented, the errcode is success, and the C
    function returns a null context pointer although the context stays
    alive.  On the read path the stored size must equal the passed size,
    else the context is freed with the format errcode. -/
def p4est_file_read_header (fc : FileContext) (storedSize : Nat)
    (headerDataGiven : Bool) (headerSize : Nat) : ReadResult :=
  if headerDataGiven = false ∨ headerSize = 0 then
    ⟨some ⟨fc.accessedBytes + (headerSize + numFieldHeaderBytes + padLen headerSize),
      fc.numCalls + 1⟩, false, mpiSuccess⟩
  else if storedSize = headerSize then
    ⟨some ⟨fc.accessedBytes + (headerSize + numFieldHeaderBytes + padLen headerSize),
      fc.numCalls + 1⟩, true, mpiSuccess⟩
  else ⟨none, false, p4estErrFormat⟩

/-- p4est_file_read_field_ext, modelled above the already-opened stream: the
    current section is a well-formed F block whose stored per-quadrant size
    is storedSize; dataGiven records whether the quadrant_data argument is
    non-null, elemSize its element size.  On the skip path (null array or
    element size 0) the cursor advances by
    stored_size * N_global + 64 + pad_len(N_global * stored_size) computed
    from the stored size, and a null context pointer is returned with a
    success errcode.  On the read path the stored size must equal the
    caller's element size, else the context is freed with the format
    errcode. -/
def p4est_file_read_field (fc : FileContext) (gnq : Nat) (storedSize : Nat)
    (dataGiven : Bool) (elemSize : Nat) : ReadResult :=
  if dataGiven = false ∨ elemSize = 0 then
    ⟨some ⟨fc.accessedBytes
        + (storedSize * gnq + numFieldHeaderBytes + padLen (gnq * storedSize)),
      fc.numCalls + 1⟩, false, mpiSuccess⟩
  else if storedSize = elemSize then
    ⟨some ⟨fc.accessedBytes
        + (elemSize * gnq + numFieldHeaderBytes + padLen (gnq * elemSize)),
      fc.numCalls + 1⟩, true, mpiSuccess⟩
  else ⟨none, false, p4estErrFormat⟩

/-- The cursor advance of a section whose payload occupies len bytes. -/
def sectionAdvance (payloadLen : Nat) : Nat :=
  numFieldHeaderBytes + payloadLen + padLen payloadLen

/-! ## The info walker -/

/-- Modelled from the spec: sc_atol / libc atol applied to a fixed-width
    ASCII decimal field (leading spaces or zeros, then digits; the fields
    parsed here are never signed). -/
def parseAtol (bs : List Nat) : Nat :=
  (((bs.dropWhile (fun b => decide (b = spByte))).takeWhile
      (fun b => decide (48 ≤ b ∧ b ≤ 57))).foldl
    (fun a b => 10 * a + (b - 48)) 0)

/-- The rank-0 section-scanning loop of p4est_file_info, at a byte position
    of the file, with explicit fuel (the caller passes the file length,
    which bounds the iteration count).  Each round reads a 64-byte section
    header into the local buffer; a short read, an unknown type byte or a
    missing newline separator discards the just-pushed entry and stops.
    The data size is parsed from bytes 2..14, the user string is bytes
    16..62, and the padding bytes behind the (skipped) payload are read into
    the same buffer, whose bytes 15 and 63 were overwritten with 0; a short
    padding read leaves the remaining stale header bytes in place, and the
    newline check inspects buffer positions 0 and pad_len - 1. -/
def infoLoop (gnq : Nat) (file : List Nat) : Nat → Nat → List SectionMeta
  | 0, _ => []
  | fuel + 1, pos =>
    let hdr := readAt file pos numFieldHeaderBytes
    if hdr.length = numFieldHeaderBytes then
      if hdr.getD 0 0 = 72 ∨ hdr.getD 0 0 = 70 then
        if hdr.getD 15 0 = nlByte then
          let ds := parseAtol ((hdr.drop 2).take 13)
          if hdr.getD 63 0 = nlByte then
            let user := (hdr.drop 16).take 47
            let curSize := if hdr.getD 0 0 = 70 then gnq * ds else ds
            let np := padLen curSize
            let padRead := readAt file (pos + numFieldHeaderBytes + curSize) np
            let buf := padRead ++ ((hdr.set 15 0).set 63 0).drop padRead.length
            if buf.getD 0 0 = nlByte ∧ buf.getD (np - 1) 0 = nlByte then
              SectionMeta.mk (hdr.getD 0 0) ds user
                :: infoLoop gnq file fuel (pos + numFieldHeaderBytes + curSize + np)
            else []
          else []
        else []
      else []
    else []

/-- Modelled from the spec: check_file_metadata on the 64-byte file header
    documented in p8est_io.h (the 2D macro constants are not under src):
    verify the newline after the 7-byte magic, the magic itself, the
    newlines closing the version and user-string lines, and parse the
    16-digit global quadrant count. -/
def checkFileMetadata (meta : List Nat) : Option Nat :=
  if meta.getD 7 0 = nlByte ∧ meta.take 7 = magicBytes ∧
      meta.getD 31 0 = nlByte ∧ meta.getD 47 0 = nlByte
  then some (parseAtol ((meta.drop 48).take 16))
  else none

/-- p4est_file_info: read and validate the file header on rank 0, compare
    the stored global quadrant count against the calling forest, then scan
    the sections from byte 80, returning one metadata entry per well-formed
    section; none models the error return. -/
def p4est_file_info (p4estGnq : Nat) (file : List Nat) :
    Option (List SectionMeta) :=
  let meta := readAt file 0 numMetadataBytes
  if meta.length = numMetadataBytes then
    match checkFileMetadata meta with
    | some gnq =>
      if gnq = p4estGnq then
        some (infoLoop p4estGnq file file.length (numMetadataBytes + byteDiv))
      else none
    | none => none
  else none

/-! ## Forest model, deflate and inflate -/

/-- The per-quadrant data extracted and rebuilt by deflate and inflate:
    coordinates, refinement level and the opaque user payload.  In the 2D
    build the z member does not exist; the model keeps it at 0 there. -/
structure Quadrant where
  x : Int
  y : Int
  z : Int
  level : Int
  userData : List Nat
deriving DecidableEq

/-- The coordinate-and-level tuple a quadrant contributes to the deflated
    array: x, y, the z coordinate in 3D, then the level. -/
def quadCoords (dim3 : Bool) (q : Quadrant) : List Int :=
  if dim3 then [q.x, q.y, q.z, q.level] else [q.x, q.y, q.level]

/-- P4EST_DIM + 1: number of coordinate entries per quadrant. -/
def quadWidth (dim3 : Bool) : Nat := if dim3 then 4 else 3

/-- The rank-local view of struct p4est that deflate reads and inflate
    builds: the global tree array (trees outside the local range hold no
    quadrants), the local tree window, the per-quadrant payload size and the
    quadrant counters.  Geometry fields not touched by this code
    (first_desc and last_desc are delegated to the forest interface) are
    omitted. -/
structure Forest where
  numTrees : Nat
  firstLocalTree : Int
  lastLocalTree : Int
  trees : List (List Quadrant)
  dataSize : Nat
  localNumQuadrants : Nat
  globalNumQuadrants : Nat
  revision : Nat
deriving DecidableEq

/-- The trees visited by the deflate loop, tree indices firstLocalTree
    through lastLocalTree in increasing order. -/
def deflateTreeList (F : Forest) : List (List Quadrant) :=
  (List.range ((F.lastLocalTree + 1 - F.firstLocalTree).toNat)).map
    (fun k : Nat => F.trees.getD (F.firstLocalTree + (k : Int)).toNat [])

/-- p4est_deflate_quadrants (coordinate part): iterate the local trees in
    tree-index order and within each tree the quadrants in stored order,
    emitting x, y, (z,) level per quadrant.  A pure read of the forest. -/
def p4est_deflate_quadrants (dim3 : Bool) (F : Forest) : List Int :=
  (deflateTreeList F).flatMap (fun t => t.flatMap (quadCoords dim3))

/-- p4est_deflate_quadrants (payload part, the optional data array): the
    data_size bytes of each quadrant, concatenated in the same order. -/
def p4est_deflate_data (F : Forest) : List Nat :=
  (deflateTreeList F).flatMap (fun t => t.flatMap Quadrant.userData)

/-- sc_bsearch_range on a fence array: the unique interval index i with
    fences[i] <= key < fences[i+1], modelled as a linear scan returning the
    same index the binary search returns. -/
def sc_bsearch_range (key : Nat) (fences : List Nat) : Nat :=
  fences.findIdx (fun f => decide (key < f)) - 1

/-- One quadrant decoded from the flat coordinate stream and the flat
    payload stream, as read by the inflate inner loop: x, y, (z,) level from
    consecutive entries, then data_size payload bytes. -/
def readQuad (dim3 : Bool) (dsize : Nat) (stream : List Int) (dstream : List Nat) :
    Quadrant × List Int × List Nat :=
  if dim3 then
    (⟨stream.getD 0 0, stream.getD 1 0, stream.getD 2 0, stream.getD 3 0,
      dstream.take dsize⟩, stream.drop 4, dstream.drop dsize)
  else
    (⟨stream.getD 0 0, stream.getD 1 0, 0, stream.getD 2 0,
      dstream.take dsize⟩, stream.drop 3, dstream.drop dsize)

/-- Decode a run of quadrants from the flat streams. -/
def readQuads (dim3 : Bool) (dsize : Nat) :
    Nat → List Int → List Nat → List Quadrant × List Int × List Nat
  | 0, s, d => ([], s, d)
  | n + 1, s, d =>
    let q := readQuad dim3 dsize s d
    let rest := readQuads dim3 dsize n q.2.1 q.2.2
    (q.1 :: rest.1, rest.2.1, rest.2.2)

/-- The tree-population loop of p4est_inflate over the tree indices: a tree
    inside the local window receives min(pertree[jt+1] - pertree[jt] - skip,
    remaining) quadrants decoded from the streams, after which skip resets to
    0 and remaining shrinks; other trees stay empty.  The counters are
    naturals; in the valid runs covered by the theorems the subtractions
    never truncate. -/
def inflateTreesAux (dim3 : Bool) (dsize : Nat) (pertree : List Nat)
    (first last : Int) :
    List Nat → Nat → Nat → List Int → List Nat → List (List Quadrant)
  | [], _, _, _, _ => []
  | jt :: jts, gtreeskip, gquadremain, qap, dap =>
    if first ≤ (jt : Int) ∧ (jt : Int) ≤ last then
      let zqthistree :=
        min (pertree.getD (jt + 1) 0 - pertree.getD jt 0 - gtreeskip) gquadremain
      let res := readQuads dim3 dsize zqthistree qap dap
      res.1 :: inflateTreesAux dim3 dsize pertree first last jts 0
        (gquadremain - zqthistree) res.2.1 res.2.2
    else
      [] :: inflateTreesAux dim3 dsize pertree first last jts gtreeskip
        gquadremain qap dap

/-- p4est_inflate: rebuild the rank-local forest from the partition map, the
    per-tree prefix sums, the flat coordinate array of deflate and the
    optional flat payload array (dsize 0 models a null data array).  The
    local window comes from binary searches of gfq[rank] and gfq[rank+1] - 1
    in pertree; a rank owning no quadrants gets the sentinels -1 and -2.
    The revision counter of the freshly allocated forest is 0. -/
def p4est_inflate (dim3 : Bool) (numProcs rank : Nat) (gfq pertree : List Nat)
    (numTrees : Nat) (quadrants : List Int) (dsize : Nat) (dataArr : List Nat) :
    Forest :=
  let g0 := gfq.getD rank 0
  let g1 := gfq.getD (rank + 1) 0
  let localNum := g1 - g0
  let fl : Int × Int × Nat :=
    if 0 < localNum then
      let gk1 := sc_bsearch_range g0 pertree
      let gk2 := sc_bsearch_range (g1 - 1) pertree
      ((gk1 : Int), (gk2 : Int), g0 - pertree.getD gk1 0)
    else (-1, -2, 0)
  Forest.mk numTrees fl.1 fl.2.1
    (inflateTreesAux dim3 dsize pertree fl.1 fl.2.1
      (List.range numTrees) fl.2.2 localNum quadrants dataArr)
    dsize localNum (gfq.getD numProcs 0) 0

/-- The quadrant inflate rebuilds from the encoded tuple of a quadrant: the
    same x, y, level and payload, with z preserved in 3D and left at its
    initial 0 in 2D (where the member does not exist). -/
def reQuad (dim3 : Bool) (q : Quadrant) : Quadrant :=
  ⟨q.x, q.y, if dim3 then q.z else 0, q.level, q.userData⟩

/-- The number of local quadrants rank r owns of tree jt under the partition
    slice [g0, g1): the overlap of [pertree[jt], pertree[jt+1]) with
    [g0, g1). -/
def treeOverlap (pertree : List Nat) (g0 g1 jt : Nat) : Nat :=
  min (pertree.getD (jt + 1) 0) g1 - max (pertree.getD jt 0) g0

/-- A forest is consistent with communicator size numProcs, rank, partition
    map gfq and per-tree prefix sums pertree: the shapes of the arrays, the
    monotonicity the source asserts, per-tree quadrant counts equal to the
    partition overlap, the local tree window as inflate derives it, uniform
    payload sizes, and the quadrant counters. -/
def ForestValid (numProcs rank numTrees : Nat) (gfq pertree : List Nat)
    (F : Forest) : Prop :=
  rank < numProcs ∧
  gfq.length = numProcs + 1 ∧
  pertree.length = numTrees + 1 ∧
  F.numTrees = numTrees ∧
  F.trees.length = numTrees ∧
  pertree.getD 0 0 = 0 ∧
  (∀ i, i < numProcs → gfq.getD i 0 ≤ gfq.getD (i + 1) 0) ∧
  (∀ jt, jt < numTrees → pertree.getD jt 0 ≤ pertree.getD (jt + 1) 0) ∧
  gfq.getD numProcs 0 = pertree.getD numTrees 0 ∧
  (∀ jt, jt < numTrees → (F.trees.getD jt []).length
    = treeOverlap pertree (gfq.getD rank 0) (gfq.getD (rank + 1) 0) jt) ∧
  F.firstLocalTree
    = (if gfq.getD rank 0 < gfq.getD (rank + 1) 0
       then ((sc_bsearch_range (gfq.getD rank 0) pertree : Nat) : Int) else -1) ∧
  F.lastLocalTree
    = (if gfq.getD rank 0 < gfq.getD (rank + 1) 0
       then ((sc_bsearch_range (gfq.getD (rank + 1) 0 - 1) pertree : Nat) : Int)
       else -2) ∧
  (∀ jt, jt < numTrees → ∀ q ∈ F.trees.getD jt [], q.userData.length = F.dataSize) ∧
  F.localNumQuadrants = gfq.getD (rank + 1) 0 - gfq.getD rank 0 ∧
  F.globalNumQuadrants = gfq.getD numProcs 0

instance (numProcs rank numTrees : Nat) (gfq pertree : List Nat) (F : Forest) :
    Decidable (ForestValid numProcs rank numTrees gfq pertree F) := by
  unfold ForestValid
  infer_instance

/-- A concrete 3D forest used as a round-trip witness: three trees holding
    2, 0 and 3 quadrants, one payload byte per quadrant, and a nonzero
    revision counter. -/
def exampleForest : Forest :=
  Forest.mk 3 0 2
    [[Quadrant.mk 0 0 0 1 [5], Quadrant.mk 1 0 0 1 [6]], [],
     [Quadrant.mk 0 0 0 1 [7], Quadrant.mk 2 2 2 2 [8], Quadrant.mk 3 3 3 2 [9]]]
    1 5 5 7

end P4estFile

namespace P4estFile

/-! ## Theorems: padding codec -/

@[simp] theorem padLen_ge_two (n : Nat) : 2 ≤ padLen n := by
  dsimp only [padLen, byteDiv]
  split <;> omega

@[simp] theorem padLen_le (n : Nat) : padLen n ≤ 17 := by
  dsimp only [padLen, byteDiv]
  split <;> omega

theorem padLen_mod (n : Nat) : (n + padLen n) % 16 = 0 := by
  dsimp only [padLen, byteDiv]
  split <;> omega

theorem padLen_min (n p : Nat) (hp : 2 ≤ p) (hmod : (n + p) % 16 = 0) :
    padLen n ≤ p := by
  dsimp only [padLen, byteDiv]
  split <;> omega

@[simp] theorem padBytes_length (n : Nat) : (padBytes n).length = padLen n := by
  have := padLen_ge_two n
  simp [padBytes]
  omega

/-- C3.  Padding codec: for every byte count L, pad_len(L) lies in [2, 17],
    L + pad_len(L) is a multiple of 16, pad_len(L) is the least such count
    that is at least 2, and the emitted padding string is exactly one
    newline, pad_len(L) - 2 spaces, and one newline. -/
theorem padding_codec (L : Nat) :
    2 ≤ padLen L ∧ padLen L ≤ 17 ∧ (L + padLen L) % 16 = 0 ∧
    (∀ p, 2 ≤ p → (L + p) % 16 = 0 → padLen L ≤ p) ∧
    padBytes L = nlByte :: (List.replicate (padLen L - 2) spByte ++ [nlByte]) :=
  ⟨padLen_ge_two L, padLen_le L, padLen_mod L,
   fun p hp hmod => padLen_min L p hp hmod, rfl⟩

/-- Witness for C3 at the concrete count L = 5 of spec scenario 1
    (pad_len 5 = 11). -/
theorem padding_codec_witness :
    2 ≤ padLen 5 ∧ padLen 5 ≤ 17 ∧ (5 + padLen 5) % 16 = 0 ∧
    (∀ p, 2 ≤ p → (5 + p) % 16 = 0 → padLen 5 ≤ p) ∧
    padBytes 5 = nlByte :: (List.replicate (padLen 5 - 2) spByte ++ [nlByte]) :=
  padding_codec 5

/-! ## Theorems: section encoding basics -/

@[simp] theorem decDigits13_length (n : Nat) : (decDigits13 n).length = 13 := by
  simp [decDigits13]

@[simp] theorem decDigits16_length (n : Nat) : (decDigits16 n).length = 16 := by
  simp [decDigits16]

theorem userString47_length (u : List Nat) (h : u.length ≤ 47) :
    (userString47 u).length = 47 := by
  simp [userString47]
  omega

theorem sectionHeaderBytes_length (b d : Nat) (u : List Nat) (h : u.length ≤ 47) :
    (sectionHeaderBytes b d u).length = 64 := by
  simp [sectionHeaderBytes, userString47_length u h]

theorem encodeSection_length (sec : DataSection) (gnq : Nat) (h : sec.wf gnq) :
    (encodeSection sec).length = 64 + sec.payloadLen + padLen sec.payloadLen := by
  have hu : sec.userStr.length ≤ 47 := by
    cases sec <;> simp [DataSection.userStr] <;> simp [DataSection.wf] at h <;> omega
  simp [encodeSection, sectionHeaderBytes_length _ _ _ hu, DataSection.payloadLen]
  omega

theorem encodeSection_length_ge (sec : DataSection) (gnq : Nat) (h : sec.wf gnq) :
    80 ≤ (encodeSection sec).length := by
  rw [encodeSection_length sec gnq h]
  have := padLen_ge_two sec.payloadLen
  have := padLen_mod sec.payloadLen
  omega

end P4estFile

namespace P4estFile

/-! ## Theorems: sequential writes and partition independence -/

theorem writeAt_at_end (file data : List Nat) (off : Nat) (h : off = file.length) :
    writeAt file off data = file ++ data := by
  subst h
  simp [writeAt]

theorem range_foldl_slices (file1 : List Nat) (base elemSize numProcs : Nat)
    (gfq : List Nat) (slices : List (List Nat))
    (h1 : file1.length = base + numFieldHeaderBytes)
    (hgfq0 : gfq.getD 0 0 = 0)
    (hmono : ∀ r, r < numProcs → gfq.getD r 0 ≤ gfq.getD (r + 1) 0)
    (hslices : slices.length = numProcs)
    (hslice : ∀ r, r < numProcs →
      (slices.getD r []).length = (gfq.getD (r + 1) 0 - gfq.getD r 0) * elemSize) :
    ∀ n, n ≤ numProcs →
      (List.range n).foldl
        (fun f r =>
          writeAt f (base + gfq.getD r 0 * elemSize + numFieldHeaderBytes)
            (slices.getD r [])) file1
      = file1 ++ (slices.take n).flatten ∧
      (file1 ++ (slices.take n).flatten).length
        = base + numFieldHeaderBytes + gfq.getD n 0 * elemSize := by
  intro n
  induction n with
  | zero =>
    intro _
    refine ⟨by simp, ?_⟩
    rw [hgfq0]
    simp [h1]
  | succ n ih =>
    intro hn
    obtain ⟨ihEq, ihLen⟩ := ih (Nat.le_of_succ_le hn)
    have hnP : n < numProcs := hn
    have hlt : n < slices.length := by omega
    have htake : slices.take (n + 1) = slices.take n ++ [slices.getD n []] := by
      rw [List.take_succ, List.getElem?_eq_getElem hlt]
      rw [List.getD_eq_getElem?_getD, List.getElem?_eq_getElem hlt]
      rfl
    have hflat : (slices.take (n + 1)).flatten
        = (slices.take n).flatten ++ slices.getD n [] := by
      rw [htake, List.flatten_append, List.flatten_cons, List.flatten_nil,
        List.append_nil]
    have hlenS := hslice n hnP
    have hmn := hmono n hnP
    have hmul : gfq.getD n 0 * elemSize ≤ gfq.getD (n + 1) 0 * elemSize :=
      Nat.mul_le_mul_right _ hmn
    have hsub : (gfq.getD (n + 1) 0 - gfq.getD n 0) * elemSize
        = gfq.getD (n + 1) 0 * elemSize - gfq.getD n 0 * elemSize :=
      Nat.sub_mul _ _ _
    constructor
    · rw [List.range_succ, List.foldl_append, ihEq]
      simp only [List.foldl_cons, List.foldl_nil]
      rw [writeAt_at_end _ _ _ (by rw [ihLen]; omega)]
      rw [hflat, List.append_assoc]
    · rw [hflat, ← List.append_assoc, List.length_append, ihLen, hlenS, hsub]
      omega

/-- Helper: normal form of p4est_file_write_field under the sequential-file
    invariant; shared by the cursor-accounting and partition-independence
    theorems. -/
theorem write_field_append (fc : FileContext) (file : List Nat)
    (numProcs gnq elemSize : Nat) (gfq : List Nat) (slices : List (List Nat))
    (user : List Nat)
    (hlen : file.length = 80 + fc.accessedBytes)
    (huser : user.length ≤ 47)
    (hgfq0 : gfq.getD 0 0 = 0)
    (hgfqP : gfq.getD numProcs 0 = gnq)
    (hmono : ∀ r, r < numProcs → gfq.getD r 0 ≤ gfq.getD (r + 1) 0)
    (hslices : slices.length = numProcs)
    (hslice : ∀ r, r < numProcs →
      (slices.getD r []).length = (gfq.getD (r + 1) 0 - gfq.getD r 0) * elemSize)
    (hs : elemSize ≠ 0) :
    p4est_file_write_field fc file numProcs gnq gfq elemSize slices user
      = (⟨fc.accessedBytes
            + (elemSize * gnq + numFieldHeaderBytes + padLen (gnq * elemSize)),
          fc.numCalls + 1⟩,
         file ++ sectionHeaderBytes 70 elemSize user ++ slices.flatten
           ++ padBytes (gnq * elemSize), 0) := by
  unfold p4est_file_write_field
  rw [if_neg hs]
  have hbase : fc.accessedBytes + numMetadataBytes + byteDiv + gfq.getD 0 0 * elemSize
      = file.length := by
    rw [hgfq0]
    simp only [numMetadataBytes, byteDiv, hlen]
    omega
  have h1 : writeAt file
      (fc.accessedBytes + numMetadataBytes + byteDiv + gfq.getD 0 0 * elemSize)
      (sectionHeaderBytes 70 elemSize user)
      = file ++ sectionHeaderBytes 70 elemSize user := by
    apply writeAt_at_end
    omega
  have hf1len : (file ++ sectionHeaderBytes 70 elemSize user).length
      = fc.accessedBytes + numMetadataBytes + byteDiv + numFieldHeaderBytes := by
    rw [List.length_append, hlen, sectionHeaderBytes_length _ _ _ huser]
    simp only [numMetadataBytes, byteDiv, numFieldHeaderBytes]
    omega
  have hfold := range_foldl_slices (file ++ sectionHeaderBytes 70 elemSize user)
    (fc.accessedBytes + numMetadataBytes + byteDiv) elemSize numProcs gfq slices
    hf1len hgfq0 hmono hslices hslice numProcs (le_refl _)
  obtain ⟨hfoldEq, hfoldLen⟩ := hfold
  have htk : slices.take numProcs = slices :=
    List.take_of_length_le (by omega)
  rw [htk] at hfoldEq hfoldLen
  rw [hgfqP] at hfoldLen
  dsimp only
  rw [h1, hfoldEq]
  rw [writeAt_at_end _ _ _ (by rw [hfoldLen])]

end P4estFile

namespace P4estFile

/-- C4.  Partition independence of field sections: with the rank slices
    partitioning a fixed global record sequence, p4est_file_write_field
    appends to the file exactly the field header, the global records in
    global order, and the padding; the on-disk bytes therefore depend only on
    N_global, the element size, the user string and the concatenated global
    content, never on the number of ranks or on gfq (each rank having written
    its slice at absolute offset 80 + accessed_bytes + 64 + gfq[r] * s). -/
theorem write_field_partition_independent (fc : FileContext) (file : List Nat)
    (numProcs1 numProcs2 gnq elemSize : Nat) (gfq1 gfq2 : List Nat)
    (slices1 slices2 : List (List Nat)) (user : List Nat)
    (hlen : file.length = 80 + fc.accessedBytes)
    (huser : user.length ≤ 47)
    (h1gfq0 : gfq1.getD 0 0 = 0) (h1gfqP : gfq1.getD numProcs1 0 = gnq)
    (h1mono : ∀ r, r < numProcs1 → gfq1.getD r 0 ≤ gfq1.getD (r + 1) 0)
    (h1slices : slices1.length = numProcs1)
    (h1slice : ∀ r, r < numProcs1 →
      (slices1.getD r []).length = (gfq1.getD (r + 1) 0 - gfq1.getD r 0) * elemSize)
    (h2gfq0 : gfq2.getD 0 0 = 0) (h2gfqP : gfq2.getD numProcs2 0 = gnq)
    (h2mono : ∀ r, r < numProcs2 → gfq2.getD r 0 ≤ gfq2.getD (r + 1) 0)
    (h2slices : slices2.length = numProcs2)
    (h2slice : ∀ r, r < numProcs2 →
      (slices2.getD r []).length = (gfq2.getD (r + 1) 0 - gfq2.getD r 0) * elemSize)
    (hs : elemSize ≠ 0)
    (hsame : slices1.flatten = slices2.flatten) :
    p4est_file_write_field fc file numProcs1 gnq gfq1 elemSize slices1 user
      = (⟨fc.accessedBytes
            + (elemSize * gnq + numFieldHeaderBytes + padLen (gnq * elemSize)),
          fc.numCalls + 1⟩,
         file ++ sectionHeaderBytes 70 elemSize user ++ slices1.flatten
           ++ padBytes (gnq * elemSize), 0) ∧
    p4est_file_write_field fc file numProcs1 gnq gfq1 elemSize slices1 user
      = p4est_file_write_field fc file numProcs2 gnq gfq2 elemSize slices2 user := by
  have e1 := write_field_append fc file numProcs1 gnq elemSize gfq1 slices1 user
    hlen huser h1gfq0 h1gfqP h1mono h1slices h1slice hs
  have e2 := write_field_append fc file numProcs2 gnq elemSize gfq2 slices2 user
    hlen huser h2gfq0 h2gfqP h2mono h2slices h2slice hs
  refine ⟨e1, ?_⟩
  rw [e1, e2, hsame]

/-- Witness for C4: two ranks with partition boundaries 0,1,3 versus a single
    rank owning all three one-byte records write the same bytes. -/
theorem write_field_partition_independent_witness :
    ((List.replicate 80 0 : List Nat).length = 80 + (0 : Nat) ∧
     ([] : List Nat).length ≤ 47 ∧
     ([[9], [8, 7]] : List (List Nat)).flatten = ([[9, 8, 7]] : List (List Nat)).flatten) ∧
    (p4est_file_write_field ⟨0, 0⟩ (List.replicate 80 0) 2 3 [0, 1, 3] 1
        [[9], [8, 7]] []
      = (⟨0 + (1 * 3 + numFieldHeaderBytes + padLen (3 * 1)), 0 + 1⟩,
         List.replicate 80 0 ++ sectionHeaderBytes 70 1 []
           ++ ([[9], [8, 7]] : List (List Nat)).flatten ++ padBytes (3 * 1), 0) ∧
     p4est_file_write_field ⟨0, 0⟩ (List.replicate 80 0) 2 3 [0, 1, 3] 1
        [[9], [8, 7]] []
      = p4est_file_write_field ⟨0, 0⟩ (List.replicate 80 0) 1 3 [0, 3] 1
        [[9, 8, 7]] []) :=
  ⟨⟨by decide, by decide, by decide⟩,
   write_field_partition_independent ⟨0, 0⟩ (List.replicate 80 0) 2 1 3 1
     [0, 1, 3] [0, 3] [[9], [8, 7]] [[9, 8, 7]] []
     (by decide) (by decide) (by decide) (by decide)
     (by decide) (by decide) (by decide)
     (by decide) (by decide) (by decide)
     (by decide) (by decide) (by decide) (by decide)⟩

end P4estFile

namespace P4estFile

/-! ## Theorems: cursor accounting -/

/-- Helper: normal form of p4est_file_write_header under the sequential-file
    invariant. -/
theorem write_header_append (fc : FileContext) (file : List Nat)
    (headerSize : Nat) (headerData user : List Nat)
    (hlen : file.length = 80 + fc.accessedBytes)
    (hdata : headerData.length = headerSize)
    (huser : user.length ≤ 47)
    (h0 : headerSize ≠ 0) :
    p4est_file_write_header fc file headerSize headerData user
      = (⟨fc.accessedBytes + (headerSize + numFieldHeaderBytes + padLen headerSize),
          fc.numCalls + 1⟩,
         file ++ sectionHeaderBytes 72 headerSize user ++ headerData
           ++ padBytes headerSize, 0) := by
  unfold p4est_file_write_header
  rw [if_neg h0]
  dsimp only
  have hb1 : fc.accessedBytes + numMetadataBytes + byteDiv = file.length := by
    simp only [numMetadataBytes, byteDiv, hlen]
    omega
  rw [writeAt_at_end _ _ _ hb1]
  have hb2 : fc.accessedBytes + numMetadataBytes + byteDiv + numFieldHeaderBytes
      = (file ++ sectionHeaderBytes 72 headerSize user).length := by
    rw [List.length_append, sectionHeaderBytes_length _ _ _ huser]
    simp only [numFieldHeaderBytes]
    omega
  rw [writeAt_at_end _ _ _ hb2]
  have hb3 : fc.accessedBytes + numMetadataBytes + byteDiv + numFieldHeaderBytes
        + headerSize
      = ((file ++ sectionHeaderBytes 72 headerSize user) ++ headerData).length := by
    rw [List.length_append, ← hb2, hdata]
  rw [writeAt_at_end _ _ _ hb3]

/-- C2 (amended).  Cursor accounting: a successful write_header advances the
    cursor by 64 + L + pad_len(L) with L the written blob size, keeping the
    file exactly 80 + accessed_bytes bytes long; a successful write_field
    advances by 64 + L + pad_len(L) with L = N_global * elem_size, with the
    same length invariant; a read_field operation (skip or not) advances by
    64 + L + pad_len(L) with L = N_global times the stored data size, and
    num_calls increments; a non-skip read_header advances by
    64 + L + pad_len(L) with L the stored data size (which must equal the
    passed size to succeed); the skip path of read_header advances by
    64 + header_size + pad_len(header_size) computed from the caller-passed
    header_size, not from the stored data size. -/
theorem cursor_accounting (fc : FileContext) (file : List Nat)
    (headerSize : Nat) (headerData user : List Nat)
    (numProcs gnq elemSize storedSize passedSize : Nat) (gfq : List Nat)
    (slices : List (List Nat))
    (hlen : file.length = 80 + fc.accessedBytes)
    (hdata : headerData.length = headerSize)
    (huser : user.length ≤ 47)
    (h0 : headerSize ≠ 0)
    (hgfq0 : gfq.getD 0 0 = 0) (hgfqP : gfq.getD numProcs 0 = gnq)
    (hmono : ∀ r, r < numProcs → gfq.getD r 0 ≤ gfq.getD (r + 1) 0)
    (hslices : slices.length = numProcs)
    (hslice : ∀ r, r < numProcs →
      (slices.getD r []).length = (gfq.getD (r + 1) 0 - gfq.getD r 0) * elemSize)
    (hs : elemSize ≠ 0) :
    ((p4est_file_write_header fc file headerSize headerData user).1.accessedBytes
        = fc.accessedBytes + sectionAdvance headerSize ∧
      (p4est_file_write_header fc file headerSize headerData user).1.numCalls
        = fc.numCalls + 1 ∧
      (p4est_file_write_header fc file headerSize headerData user).2.1.length
        = 80 + (p4est_file_write_header fc file headerSize headerData user).1.accessedBytes) ∧
    ((p4est_file_write_field fc file numProcs gnq gfq elemSize slices user).1.accessedBytes
        = fc.accessedBytes + sectionAdvance (gnq * elemSize) ∧
      (p4est_file_write_field fc file numProcs gnq gfq elemSize slices user).1.numCalls
        = fc.numCalls + 1 ∧
      (p4est_file_write_field fc file numProcs gnq gfq elemSize slices user).2.1.length
        = 80 + (p4est_file_write_field fc file numProcs gnq gfq elemSize slices user).1.accessedBytes) ∧
    ((p4est_file_read_field fc gnq storedSize false elemSize).ctx
        = some ⟨fc.accessedBytes + sectionAdvance (gnq * storedSize), fc.numCalls + 1⟩) ∧
    (storedSize = elemSize →
      (p4est_file_read_field fc gnq storedSize true elemSize).ctx
        = some ⟨fc.accessedBytes + sectionAdvance (gnq * elemSize), fc.numCalls + 1⟩) ∧
    ((p4est_file_read_header fc storedSize true storedSize).ctx
        = some (if storedSize = 0
            then ⟨fc.accessedBytes + (0 + numFieldHeaderBytes + padLen 0), fc.numCalls + 1⟩
            else ⟨fc.accessedBytes + sectionAdvance storedSize, fc.numCalls + 1⟩)) ∧
    ((p4est_file_read_header fc storedSize false passedSize).ctx
        = some ⟨fc.accessedBytes
            + (passedSize + numFieldHeaderBytes + padLen passedSize),
          fc.numCalls + 1⟩) := by
  have hwh := write_header_append fc file headerSize headerData user hlen hdata huser h0
  have hwf := write_field_append fc file numProcs gnq elemSize gfq slices user
    hlen huser hgfq0 hgfqP hmono hslices hslice hs
  refine ⟨?_, ?_, ?_, ?_, ?_, ?_⟩
  · rw [hwh]
    refine ⟨by simp [sectionAdvance]; ring, rfl, ?_⟩
    simp only [List.length_append, hlen, sectionHeaderBytes_length _ _ _ huser,
      hdata, padBytes_length, sectionAdvance, numFieldHeaderBytes]
    omega
  · rw [hwf]
    refine ⟨by simp [sectionAdvance]; ring, rfl, ?_⟩
    have hflatLen : (slices.flatten).length = gnq * elemSize := by
      have hfold := range_foldl_slices (file ++ sectionHeaderBytes 70 elemSize user)
        (fc.accessedBytes + numMetadataBytes + byteDiv) elemSize numProcs gfq slices
        (by
          rw [List.length_append, hlen, sectionHeaderBytes_length _ _ _ huser]
          simp only [numMetadataBytes, byteDiv, numFieldHeaderBytes]
          omega)
        hgfq0 hmono hslices hslice numProcs (le_refl _)
      obtain ⟨-, hfoldLen⟩ := hfold
      have htk : slices.take numProcs = slices :=
        List.take_of_length_le (by omega)
      rw [htk, hgfqP] at hfoldLen
      simp only [List.length_append, hlen, sectionHeaderBytes_length _ _ _ huser,
        numMetadataBytes, byteDiv, numFieldHeaderBytes] at hfoldLen
      omega
    have hcomm : elemSize * gnq = gnq * elemSize := Nat.mul_comm _ _
    simp only [List.length_append, hlen, sectionHeaderBytes_length _ _ _ huser,
      hflatLen, padBytes_length, sectionAdvance, numFieldHeaderBytes]
    omega
  · unfold p4est_file_read_field
    rw [if_pos (Or.inl rfl)]
    simp [sectionAdvance, numFieldHeaderBytes]
    ring
  · intro hse
    unfold p4est_file_read_field
    rw [if_neg (by simp [hs]), if_pos hse]
    simp [sectionAdvance, numFieldHeaderBytes]
    ring
  · unfold p4est_file_read_header
    by_cases hsz : storedSize = 0
    · rw [if_pos (Or.inr hsz), if_pos hsz]
      simp [hsz]
    · rw [if_neg (by simp [hsz]), if_pos rfl, if_neg hsz]
      simp [sectionAdvance, numFieldHeaderBytes]
      ring
  · unfold p4est_file_read_header
    rw [if_pos (Or.inl rfl)]

/-- Counterexample for C2: skipping an H section whose stored data size is 32
    with passed header_size 0 advances the cursor by 80, not by the
    64 + 32 + pad_len(32) = 112 bytes the stored size prescribes. -/
theorem cursor_accounting_counterexample :
    (p4est_file_read_header ⟨0, 0⟩ 32 true 0)
      = ⟨some ⟨80, 1⟩, false, 0⟩ ∧
    sectionAdvance 32 = 112 ∧ (80 : Nat) ≠ 112 := by
  refine ⟨?_, by decide, by decide⟩
  decide

/-- Witness for C2 at concrete inputs: a 3-byte header blob, a one-rank
    1-byte field of three records, and reads with stored size 3. -/
theorem cursor_accounting_witness :
    ((List.replicate 80 0 : List Nat).length = 80 + (0 : Nat) ∧ (3 : Nat) ≠ 0 ∧
      (1 : Nat) ≠ 0) ∧
    ((p4est_file_write_header ⟨0, 0⟩ (List.replicate 80 0) 3 [7, 7, 7] []).1.accessedBytes
        = 0 + sectionAdvance 3 ∧
      (p4est_file_write_header ⟨0, 0⟩ (List.replicate 80 0) 3 [7, 7, 7] []).1.numCalls
        = 0 + 1 ∧
      (p4est_file_write_header ⟨0, 0⟩ (List.replicate 80 0) 3 [7, 7, 7] []).2.1.length
        = 80 + (p4est_file_write_header ⟨0, 0⟩ (List.replicate 80 0) 3 [7, 7, 7] []).1.accessedBytes) ∧
    ((p4est_file_write_field ⟨0, 0⟩ (List.replicate 80 0) 1 3 [0, 3] 1 [[9, 8, 7]] []).1.accessedBytes
        = 0 + sectionAdvance (3 * 1) ∧
      (p4est_file_write_field ⟨0, 0⟩ (List.replicate 80 0) 1 3 [0, 3] 1 [[9, 8, 7]] []).1.numCalls
        = 0 + 1 ∧
      (p4est_file_write_field ⟨0, 0⟩ (List.replicate 80 0) 1 3 [0, 3] 1 [[9, 8, 7]] []).2.1.length
        = 80 + (p4est_file_write_field ⟨0, 0⟩ (List.replicate 80 0) 1 3 [0, 3] 1 [[9, 8, 7]] []).1.accessedBytes) ∧
    ((p4est_file_read_field ⟨0, 0⟩ 3 3 false 1).ctx
        = some ⟨0 + sectionAdvance (3 * 3), 0 + 1⟩) ∧
    ((3 : Nat) = 1 →
      (p4est_file_read_field ⟨0, 0⟩ 3 3 true 1).ctx
        = some ⟨0 + sectionAdvance (3 * 1), 0 + 1⟩) ∧
    ((p4est_file_read_header ⟨0, 0⟩ 3 true 3).ctx
        = some (if (3 : Nat) = 0
            then ⟨0 + (0 + numFieldHeaderBytes + padLen 0), 0 + 1⟩
            else ⟨0 + sectionAdvance 3, 0 + 1⟩)) ∧
    ((p4est_file_read_header ⟨0, 0⟩ 3 false 5).ctx
        = some ⟨0 + (5 + numFieldHeaderBytes + padLen 5), 0 + 1⟩) :=
  ⟨⟨by decide, by decide, by decide⟩,
   cursor_accounting ⟨0, 0⟩ (List.replicate 80 0) 3 [7, 7, 7] [] 1 3 1 3 5
     [0, 3] [[9, 8, 7]] (by decide) (by decide) (by decide) (by decide)
     (by decide) (by decide) (by decide) (by decide) (by decide) (by decide)⟩

end P4estFile

namespace P4estFile

/-! ## Theorems: zero-size operations and skip semantics -/

/-- C6 (amended).  Zero-size semantics: write_header with header_size 0 and
    write_field with elem_size 0 are no-op successes that leave the context
    state, the file bytes, accessed_bytes and num_calls unchanged and set the
    errcode to success; read_header with header_size 0 (or header_data null)
    succeeds with errcode success but is not a no-op: it skips the current
    section, advancing accessed_bytes by 64 + header_size +
    pad_len(header_size) and incrementing num_calls. -/
theorem zero_size_semantics (fc : FileContext) (file : List Nat)
    (headerData user : List Nat) (numProcs gnq storedSize : Nat)
    (gfq : List Nat) (slices : List (List Nat)) (headerDataGiven : Bool) :
    p4est_file_write_header fc file 0 headerData user = (fc, file, 0) ∧
    p4est_file_write_field fc file numProcs gnq gfq 0 slices user
      = (fc, file, 0) ∧
    p4est_file_read_header fc storedSize headerDataGiven 0
      = ⟨some ⟨fc.accessedBytes + (0 + numFieldHeaderBytes + padLen 0),
          fc.numCalls + 1⟩, false, mpiSuccess⟩ := by
  refine ⟨rfl, rfl, ?_⟩
  unfold p4est_file_read_header
  rw [if_pos (Or.inr rfl)]

/-- Counterexample for C6: calling read_header with header_size 0 on a fresh
    context changes both accessed_bytes (to 80) and num_calls (to 1), so it
    is not the cursor-preserving no-op the claim describes. -/
theorem zero_size_read_header_not_noop :
    p4est_file_read_header ⟨0, 0⟩ 0 true 0
      = ⟨some ⟨80, 1⟩, false, 0⟩ ∧
    (80 : Nat) ≠ 0 ∧ (1 : Nat) ≠ 0 := by
  refine ⟨?_, by decide, by decide⟩
  decide

/-- Witness for C6 at a fresh context and a stored section of size 6. -/
theorem zero_size_semantics_witness :
    p4est_file_write_header ⟨2, 1⟩ [3, 4] 0 [5] [] = (⟨2, 1⟩, [3, 4], 0) ∧
    p4est_file_write_field ⟨2, 1⟩ [3, 4] 1 4 [0, 4] 0 [[1]] []
      = (⟨2, 1⟩, [3, 4], 0) ∧
    p4est_file_read_header ⟨2, 1⟩ 6 true 0
      = ⟨some ⟨2 + (0 + numFieldHeaderBytes + padLen 0), 1 + 1⟩, false,
        mpiSuccess⟩ :=
  zero_size_semantics ⟨2, 1⟩ [3, 4] [5] [] 1 4 6 [0, 4] [[1]] true

/-- C10.  A successful skip returns a null context: the skip paths of
    read_header and read_field return a null context pointer with a success
    errcode while the context itself survives with its cursor advanced; the
    modelled H-block skip with header_data null and passed size 16 on a
    section of stored size 48 advances the cursor to 96, short of the
    64 + 48 + pad_len(48) = 128 bytes of the section, so the cursor is not
    advanced past the skipped section as the claim states (the F-block skip
    does land exactly past its section). -/
theorem skip_returns_null_context :
    (p4est_file_read_header ⟨0, 0⟩ 48 false 16
      = ⟨some ⟨96, 1⟩, false, 0⟩) ∧
    sectionAdvance 48 = 128 ∧ (96 : Nat) < 128 ∧
    (p4est_file_read_field ⟨0, 0⟩ 10 4 false 0
      = ⟨some ⟨sectionAdvance 40, 1⟩, false, 0⟩) ∧
    sectionAdvance 40 = 112 := by
  refine ⟨by decide, by decide, by decide, ?_, by decide⟩
  decide

/-! ## Theorems: error-code classes -/

/-- C9 (amended).  The count-error code -1 is distinct from every backend
    error code (errno values and MPI error codes are positive) and the
    normalization p4est_file_error_code passes it through unchanged, so its
    class collides with no backend class; the format-error code, however, is
    by definition the backend I/O class itself. -/
theorem count_error_class_separation :
    P4EST_FILE_COUNT_ERROR ∉ backendErrorCodes ∧
    p4est_file_error_code P4EST_FILE_COUNT_ERROR = P4EST_FILE_COUNT_ERROR ∧
    (∀ e, e ∈ backendErrorCodes →
      p4est_file_error_code P4EST_FILE_COUNT_ERROR ≠ e) ∧
    p4estErrFormat ∈ backendErrorCodes := by
  refine ⟨?_, rfl, ?_, ?_⟩
  · intro h
    simp [backendErrorCodes, P4EST_FILE_COUNT_ERROR] at h
  · intro e he
    have : 0 < e := he
    simp [p4est_file_error_code, P4EST_FILE_COUNT_ERROR]
    omega
  · show (0 : Int) < 5
    decide

/-- Witness for C9 at the backend code EIO = 5. -/
theorem count_error_class_separation_witness :
    (5 : Int) ∈ backendErrorCodes ∧
    p4est_file_error_code P4EST_FILE_COUNT_ERROR ≠ (5 : Int) :=
  ⟨by show (0 : Int) < 5; decide,
   count_error_class_separation.2.2.1 5 (by show (0 : Int) < 5; decide)⟩

/-- Counterexample for C9: the format-error code is defined as the backend
    code EIO, so it equals an error code the backend I/O layer produces, and
    the normalization maps it to that same backend class. -/
theorem format_error_class_collides :
    p4estErrFormat = eioErrno ∧
    p4estErrFormat ∈ backendErrorCodes ∧
    p4est_file_error_code p4estErrFormat = p4estErrFormat := by
  refine ⟨rfl, ?_, ?_⟩
  · show (0 : Int) < 5
    decide
  · simp [p4est_file_error_code, P4EST_FILE_COUNT_ERROR, p4estErrFormat,
      eioErrno, sc_io_error_class]

end P4estFile

namespace P4estFile

/-! ## Theorems: deflate shape and order -/

@[simp] theorem quadCoords_length (dim3 : Bool) (q : Quadrant) :
    (quadCoords dim3 q).length = quadWidth dim3 := by
  cases dim3 <;> simp [quadCoords, quadWidth]

theorem flatMap_coords_length (dim3 : Bool) (t : List Quadrant) :
    (t.flatMap (quadCoords dim3)).length = quadWidth dim3 * t.length := by
  induction t with
  | nil => simp
  | cons q t ih =>
    simp [ih]
    ring

theorem flatMap_coords_sum (dim3 : Bool) (L : List (List Quadrant)) :
    ((L.flatMap fun t => t.flatMap (quadCoords dim3)).length)
      = quadWidth dim3 * (L.map List.length).sum := by
  induction L with
  | nil => simp
  | cons t L ih =>
    rw [List.flatMap_cons, List.length_append, flatMap_coords_length, ih,
      List.map_cons, List.sum_cons, Nat.mul_add]

theorem flatMap_data_sum (dsize : Nat) (L : List (List Quadrant))
    (h : ∀ t ∈ L, ∀ q ∈ t, q.userData.length = dsize) :
    ((L.flatMap fun t => t.flatMap Quadrant.userData).length)
      = dsize * (L.map List.length).sum := by
  induction L with
  | nil => simp
  | cons t L ih =>
    have ht : (t.flatMap Quadrant.userData).length = dsize * t.length := by
      have hq := h t (by simp)
      clear h ih
      induction t with
      | nil => simp
      | cons q t ihq =>
        have := hq q (by simp)
        simp [this, ihq (fun q hqm => hq q (by simp [hqm]))]
        ring
    simp [ht, ih (fun t2 ht2 q hq => h t2 (by simp [ht2]) q hq)]
    ring

/-- C5.  Deflate output shape and order: the coordinate array holds exactly
    (D+1) * local_num_quadrants entries, laid out tree-major (trees in
    increasing index, quadrants in stored order) as the per-quadrant
    (x, y, [z], level) tuples, and the payload array holds exactly
    data_size * local_num_quadrants bytes, the per-quadrant payloads
    concatenated in the same order; deflate is a pure function of the forest,
    which it does not modify. -/
theorem deflate_shape_order (dim3 : Bool) (F : Forest)
    (hloc : F.localNumQuadrants = ((deflateTreeList F).map List.length).sum)
    (hdata : ∀ t ∈ deflateTreeList F, ∀ q ∈ t, q.userData.length = F.dataSize) :
    (p4est_deflate_quadrants dim3 F).length
      = quadWidth dim3 * F.localNumQuadrants ∧
    (p4est_deflate_data F).length = F.dataSize * F.localNumQuadrants ∧
    p4est_deflate_quadrants dim3 F
      = (deflateTreeList F).flatMap (fun t => t.flatMap (quadCoords dim3)) ∧
    p4est_deflate_data F
      = (deflateTreeList F).flatMap (fun t => t.flatMap Quadrant.userData) := by
  refine ⟨?_, ?_, rfl, rfl⟩
  · rw [hloc]
    exact flatMap_coords_sum dim3 (deflateTreeList F)
  · rw [hloc]
    exact flatMap_data_sum F.dataSize (deflateTreeList F) hdata

/-- Witness for C5: a 3D forest of three trees with 2, 0 and 3 quadrants and
    one payload byte per quadrant. -/
theorem deflate_shape_order_witness :
    ((Forest.mk 3 0 2
        [[⟨0, 0, 0, 1, [5]⟩, ⟨1, 0, 0, 1, [6]⟩], [],
         [⟨0, 0, 0, 1, [7]⟩, ⟨2, 2, 2, 2, [8]⟩, ⟨3, 3, 3, 2, [9]⟩]]
        1 5 5 0).localNumQuadrants
      = ((deflateTreeList (Forest.mk 3 0 2
          [[⟨0, 0, 0, 1, [5]⟩, ⟨1, 0, 0, 1, [6]⟩], [],
           [⟨0, 0, 0, 1, [7]⟩, ⟨2, 2, 2, 2, [8]⟩, ⟨3, 3, 3, 2, [9]⟩]]
          1 5 5 0)).map List.length).sum) ∧
    (p4est_deflate_quadrants true (Forest.mk 3 0 2
        [[⟨0, 0, 0, 1, [5]⟩, ⟨1, 0, 0, 1, [6]⟩], [],
         [⟨0, 0, 0, 1, [7]⟩, ⟨2, 2, 2, 2, [8]⟩, ⟨3, 3, 3, 2, [9]⟩]]
        1 5 5 0)).length
      = quadWidth true * 5 :=
  ⟨by decide,
   (deflate_shape_order true (Forest.mk 3 0 2
      [[⟨0, 0, 0, 1, [5]⟩, ⟨1, 0, 0, 1, [6]⟩], [],
       [⟨0, 0, 0, 1, [7]⟩, ⟨2, 2, 2, 2, [8]⟩, ⟨3, 3, 3, 2, [9]⟩]]
      1 5 5 0) (by decide) (by decide)).1⟩

/-! ## Theorems: inflate on an empty slice -/

theorem inflateTreesAux_sentinel (dim3 : Bool) (dsize : Nat) (pertree : List Nat)
    (jts : List Nat) (skip remain : Nat) (qap : List Int) (dap : List Nat) :
    inflateTreesAux dim3 dsize pertree (-1) (-2) jts skip remain qap dap
      = List.replicate jts.length [] := by
  induction jts generalizing skip remain qap dap with
  | nil => rfl
  | cons jt jts ih =>
    rw [inflateTreesAux, if_neg, ih, List.length_cons, List.replicate_succ]
    intro ⟨h1, h2⟩
    omega

/-- C8.  Empty-slice sentinel: whenever the calling rank owns zero quadrants
    under the partition (gfq[r+1] = gfq[r]), the inflated forest carries
    first_local_tree = -1 and last_local_tree = -2, every tree is empty, the
    local quadrant count is 0, and no coordinate tuples or payload bytes are
    consumed (the result does not depend on the streams at all). -/
theorem inflate_empty_slice (dim3 : Bool) (numProcs rank numTrees : Nat)
    (gfq pertree : List Nat) (quadrants : List Int) (dsize : Nat)
    (dataArr : List Nat)
    (h : gfq.getD (rank + 1) 0 = gfq.getD rank 0) :
    (p4est_inflate dim3 numProcs rank gfq pertree numTrees quadrants dsize
        dataArr).firstLocalTree = -1 ∧
    (p4est_inflate dim3 numProcs rank gfq pertree numTrees quadrants dsize
        dataArr).lastLocalTree = -2 ∧
    (p4est_inflate dim3 numProcs rank gfq pertree numTrees quadrants dsize
        dataArr).trees = List.replicate numTrees [] ∧
    (p4est_inflate dim3 numProcs rank gfq pertree numTrees quadrants dsize
        dataArr).localNumQuadrants = 0 := by
  have hln : gfq.getD (rank + 1) 0 - gfq.getD rank 0 = 0 := by omega
  unfold p4est_inflate
  dsimp only
  rw [hln, if_neg (lt_irrefl 0)]
  refine ⟨rfl, rfl, ?_, rfl⟩
  rw [inflateTreesAux_sentinel]
  simp

/-- Witness for C8 on a two-rank partition where rank 1 owns nothing. -/
theorem inflate_empty_slice_witness :
    ([0, 4, 4] : List Nat).getD 2 0 = ([0, 4, 4] : List Nat).getD 1 0 ∧
    (p4est_inflate true 2 1 [0, 4, 4] [0, 4] 1 [9, 9, 9, 9] 0 []).firstLocalTree
      = -1 ∧
    (p4est_inflate true 2 1 [0, 4, 4] [0, 4] 1 [9, 9, 9, 9] 0 []).lastLocalTree
      = -2 ∧
    (p4est_inflate true 2 1 [0, 4, 4] [0, 4] 1 [9, 9, 9, 9] 0 []).trees
      = List.replicate 1 [] :=
  ⟨by decide,
   (inflate_empty_slice true 2 1 1 [0, 4, 4] [0, 4] [9, 9, 9, 9] 0 []
      (by decide)).1,
   (inflate_empty_slice true 2 1 1 [0, 4, 4] [0, 4] [9, 9, 9, 9] 0 []
      (by decide)).2.1,
   (inflate_empty_slice true 2 1 1 [0, 4, 4] [0, 4] [9, 9, 9, 9] 0 []
      (by decide)).2.2.1⟩

end P4estFile

namespace P4estFile

/-! ## Theorems: inflate reconstructs the deflated forest -/

theorem getD_chain (pt : List Nat) (T : Nat)
    (hm : ∀ jt, jt < T → pt.getD jt 0 ≤ pt.getD (jt + 1) 0) :
    ∀ i j, i ≤ j → j ≤ T → pt.getD i 0 ≤ pt.getD j 0 := by
  intro i j
  induction j with
  | zero =>
    intro hij _
    have hi0 : i = 0 := by omega
    rw [hi0]
  | succ j ih =>
    intro hij hjT
    rcases Nat.lt_or_ge i (j + 1) with hlt | hge
    · exact le_trans (ih (by omega) (by omega)) (hm j (by omega))
    · have hi : i = j + 1 := by omega
      rw [hi]

theorem list_getD_eq_getElem (l : List Nat) (i : Nat) (h : i < l.length) :
    l.getD i 0 = l[i] := by
  rw [List.getD_eq_getElem?_getD, List.getElem?_eq_getElem h]
  rfl

theorem sc_bsearch_range_spec (key : Nat) (fences : List Nat) (T : Nat)
    (hlen : fences.length = T + 1)
    (h0 : fences.getD 0 0 ≤ key) (hT : key < fences.getD T 0) :
    sc_bsearch_range key fences < T ∧
    fences.getD (sc_bsearch_range key fences) 0 ≤ key ∧
    key < fences.getD (sc_bsearch_range key fences + 1) 0 := by
  have hTlt : T < fences.length := by omega
  have hexists : ∃ x ∈ fences, (fun f => decide (key < f)) x = true := by
    refine ⟨fences[T], List.getElem_mem hTlt, ?_⟩
    rw [← list_getD_eq_getElem fences T hTlt]
    simpa using hT
  have hjlt : fences.findIdx (fun f => decide (key < f)) < fences.length :=
    List.findIdx_lt_length_of_exists hexists
  set j := fences.findIdx (fun f => decide (key < f)) with hj
  have hpj : key < fences.getD j 0 := by
    rw [list_getD_eq_getElem fences j hjlt]
    have := @List.findIdx_getElem _ (fun f => decide (key < f)) fences hjlt
    simpa using this
  have hj1 : 1 ≤ j := by
    by_contra hcon
    have hj0 : j = 0 := by omega
    rw [hj0] at hpj
    omega
  have hpb : fences.getD (j - 1) 0 ≤ key := by
    have hfalse := @List.not_of_lt_findIdx _ (fun f => decide (key < f))
      fences (j - 1) (by omega)
    rw [list_getD_eq_getElem fences (j - 1) (by omega)]
    simpa using hfalse
  have hbs : sc_bsearch_range key fences = j - 1 := rfl
  have hsum : j - 1 + 1 = j := by omega
  refine ⟨by omega, by rw [hbs]; exact hpb, ?_⟩
  rw [hbs, hsum]
  exact hpj

end P4estFile

namespace P4estFile

theorem readQuad_encode (dim3 : Bool) (dsize : Nat) (q : Quadrant)
    (s : List Int) (d : List Nat) (hq : q.userData.length = dsize) :
    readQuad dim3 dsize (quadCoords dim3 q ++ s) (q.userData ++ d)
      = (reQuad dim3 q, s, d) := by
  subst hq
  cases dim3 <;>
    simp [readQuad, quadCoords, reQuad, List.take_left, List.drop_left,
      List.getD_cons_zero, List.getD_cons_succ]

theorem readQuads_encode (dim3 : Bool) (dsize : Nat) (t : List Quadrant)
    (s : List Int) (d : List Nat)
    (h : ∀ q ∈ t, q.userData.length = dsize) :
    readQuads dim3 dsize t.length (t.flatMap (quadCoords dim3) ++ s)
        (t.flatMap Quadrant.userData ++ d)
      = (t.map (reQuad dim3), s, d) := by
  induction t with
  | nil => simp [readQuads]
  | cons q t ih =>
    rw [List.length_cons, List.flatMap_cons, List.flatMap_cons,
      List.append_assoc, List.append_assoc]
    rw [readQuads]
    rw [readQuad_encode dim3 dsize q _ _ (h q (by simp))]
    rw [ih (fun q2 hq2 => h q2 (by simp [hq2]))]
    rfl

end P4estFile

namespace P4estFile

/-- Helper: the inflate tree loop, started at tree a with the loop state the
    source maintains there (the remaining skip, the remaining local quadrant
    count, and the still-unconsumed tails of the two flat streams),
    reconstructs each remaining tree of a forest whose per-tree counts agree
    with the partition overlap. -/
theorem inflateTreesAux_run (dim3 : Bool) (dsize : Nat) (pertree : List Nat)
    (T f l g0 g1 : Nat) (trees : List (List Quadrant))
    (hlenT : pertree.length = T + 1)
    (hTrees : trees.length = T)
    (hm : ∀ jt, jt < T → pertree.getD jt 0 ≤ pertree.getD (jt + 1) 0)
    (hfl : f ≤ l) (hlT : l < T)
    (hf1 : pertree.getD f 0 ≤ g0) (hf2 : g0 < pertree.getD (f + 1) 0)
    (hl1 : pertree.getD l 0 < g1) (hl2 : g1 ≤ pertree.getD (l + 1) 0)
    (hcount : ∀ jt, jt < T → (trees.getD jt []).length
      = treeOverlap pertree g0 g1 jt)
    (hdata : ∀ jt, jt < T → ∀ q ∈ trees.getD jt [],
      q.userData.length = dsize) :
    ∀ n a, a + n = T →
      inflateTreesAux dim3 dsize pertree (f : Int) (l : Int) (List.range' a n)
        (if a ≤ f then g0 - pertree.getD f 0 else 0)
        (g1 - max g0 (pertree.getD a 0))
        (((List.range' a (T - a)).map
          (fun jt => (trees.getD jt []).flatMap (quadCoords dim3))).flatten)
        (((List.range' a (T - a)).map
          (fun jt => (trees.getD jt []).flatMap Quadrant.userData)).flatten)
      = (List.range' a n).map (fun jt => (trees.getD jt []).map (reQuad dim3)) := by
  intro n
  induction n with
  | zero =>
    intro a _
    rfl
  | succ n ih =>
    intro a han
    have haT : a < T := by omega
    have hTa : T - a = n + 1 := by omega
    have hTa1 : T - (a + 1) = n := by omega
    rw [hTa, List.range'_succ, List.map_cons, List.flatten_cons,
      List.map_cons, List.flatten_cons]
    have hchain := getD_chain pertree T hm
    have haa := hm a haT
    have hov := hcount a haT
    rcases Nat.lt_or_ge a f with haf | haf
    · -- tree before the local window: it is empty and nothing changes
      have hpa1f : pertree.getD (a + 1) 0 ≤ pertree.getD f 0 :=
        hchain (a + 1) f haf (by omega)
      have hpaf : pertree.getD a 0 ≤ pertree.getD f 0 :=
        hchain a f (by omega) (by omega)
      have hempty : trees.getD a [] = [] := by
        rw [← List.length_eq_zero, hov]
        unfold treeOverlap
        omega
      rw [inflateTreesAux, if_neg (by omega)]
      rw [hempty]
      simp only [List.flatMap_nil, List.nil_append, List.map_nil]
      have hrec := ih (a + 1) (by omega)
      rw [if_pos (by omega : a + 1 ≤ f)] at hrec
      rw [if_pos (by omega : a ≤ f)]
      have hrem : g1 - max g0 (pertree.getD (a + 1) 0)
          = g1 - max g0 (pertree.getD a 0) := by omega
      rw [hTa1] at hrec
      rw [← hrem, hrec]
      rw [List.map_cons, hempty, List.map_nil]
    · rcases le_or_lt a l with hal | hal
      · -- tree inside the local window
        have hcond : ((f : Int) ≤ (a : Nat) ∧ ((a : Nat) : Int) ≤ (l : Int)) := by
          constructor <;> omega
        rw [inflateTreesAux, if_pos hcond]
        dsimp only
        have hcnt : min
            (pertree.getD (a + 1) 0 - pertree.getD a 0
              - (if a ≤ f then g0 - pertree.getD f 0 else 0))
            (g1 - max g0 (pertree.getD a 0))
            = (trees.getD a []).length := by
          rw [hov]
          unfold treeOverlap
          rcases Nat.eq_or_lt_of_le haf with heq | hlt
          · rw [if_pos (by omega : a ≤ f)]
            have hfa : pertree.getD f 0 = pertree.getD a 0 := by rw [heq]
            have hfa1 : pertree.getD (f + 1) 0 = pertree.getD (a + 1) 0 := by
              rw [heq]
            omega
          · rw [if_neg (by omega : ¬ a ≤ f)]
            have hp1a : pertree.getD (f + 1) 0 ≤ pertree.getD a 0 :=
              hchain (f + 1) a hlt (by omega)
            have hpal : pertree.getD a 0 ≤ pertree.getD l 0 :=
              hchain a l hal (by omega)
            omega
        rw [hcnt]
        rw [readQuads_encode dim3 dsize (trees.getD a []) _ _
          (hdata a haT)]
        dsimp only
        have hrec := ih (a + 1) (by omega)
        rw [if_neg (by omega : ¬ a + 1 ≤ f)] at hrec
        rw [hTa1] at hrec
        have hrem : (g1 - max g0 (pertree.getD a 0)) - (trees.getD a []).length
            = g1 - max g0 (pertree.getD (a + 1) 0) := by
          rw [hov]
          unfold treeOverlap
          rcases Nat.eq_or_lt_of_le haf with heq | hlt
          · have hfa : pertree.getD f 0 = pertree.getD a 0 := by rw [heq]
            have hfa1 : pertree.getD (f + 1) 0 = pertree.getD (a + 1) 0 := by
              rw [heq]
            omega
          · have hp1a : pertree.getD (f + 1) 0 ≤ pertree.getD a 0 :=
              hchain (f + 1) a hlt (by omega)
            have hpal : pertree.getD a 0 ≤ pertree.getD l 0 :=
              hchain a l hal (by omega)
            omega
        rw [hrem, hrec, List.map_cons]
      · -- tree after the local window: it is empty and nothing changes
        have hpl1a : pertree.getD (l + 1) 0 ≤ pertree.getD a 0 :=
          hchain (l + 1) a hal (by omega)
        have hpl1a1 : pertree.getD (l + 1) 0 ≤ pertree.getD (a + 1) 0 :=
          hchain (l + 1) (a + 1) (by omega) (by omega)
        have hempty : trees.getD a [] = [] := by
          rw [← List.length_eq_zero, hov]
          unfold treeOverlap
          omega
        rw [inflateTreesAux, if_neg (by omega)]
        rw [hempty]
        simp only [List.flatMap_nil, List.nil_append, List.map_nil]
        have hrec := ih (a + 1) (by omega)
        rw [if_neg (by omega : ¬ a + 1 ≤ f)] at hrec
        rw [if_neg (by omega : ¬ a ≤ f)]
        have hrem : g1 - max g0 (pertree.getD (a + 1) 0)
            = g1 - max g0 (pertree.getD a 0) := by omega
        rw [hTa1] at hrec
        rw [← hrem, hrec]
        rw [List.map_cons, hempty, List.map_nil]

end P4estFile

namespace P4estFile

@[simp] theorem quadCoords_reQuad (dim3 : Bool) (q : Quadrant) :
    quadCoords dim3 (reQuad dim3 q) = quadCoords dim3 q := by
  cases dim3 <;> simp [quadCoords, reQuad]

@[simp] theorem userData_reQuad (dim3 : Bool) (q : Quadrant) :
    (reQuad dim3 q).userData = q.userData := by
  simp [reQuad]

theorem flatMap_map_reQuad_coords (dim3 : Bool) (t : List Quadrant) :
    (t.map (reQuad dim3)).flatMap (quadCoords dim3)
      = t.flatMap (quadCoords dim3) := by
  induction t with
  | nil => rfl
  | cons q t ih => simp [ih]

theorem flatMap_map_reQuad_data (dim3 : Bool) (t : List Quadrant) :
    (t.map (reQuad dim3)).flatMap Quadrant.userData
      = t.flatMap Quadrant.userData := by
  induction t with
  | nil => rfl
  | cons q t ih => simp [ih]

theorem deflateTreeList_window (F : Forest) (f l : Nat)
    (hf : F.firstLocalTree = (f : Int)) (hl : F.lastLocalTree = (l : Int)) :
    deflateTreeList F = (List.range' f (l + 1 - f)).map
      (fun jt => F.trees.getD jt []) := by
  unfold deflateTreeList
  rw [hf, hl]
  have ht : ((l : Int) + 1 - (f : Int)).toNat = l + 1 - f := by omega
  rw [ht, List.range'_eq_map_range f (l + 1 - f), List.map_map]
  apply List.map_congr_left
  intro k _
  have : ((f : Int) + (k : Int)).toNat = f + k := by omega
  simp only [Function.comp]
  rw [this]

theorem deflateTreeList_sentinel (F : Forest)
    (hf : F.firstLocalTree = -1) (hl : F.lastLocalTree = -2) :
    deflateTreeList F = [] := by
  unfold deflateTreeList
  rw [hf, hl]
  rfl

theorem mapRange_getD_lt (T jt : Nat) (g : Nat → List Quadrant) (h : jt < T) :
    (((List.range' 0 T).map g).getD jt []) = g jt := by
  have hlt : jt < ((List.range' 0 T).map g).length := by
    simp [List.length_range']
    omega
  rw [List.getD_eq_getElem?_getD, List.getElem?_eq_getElem hlt]
  simp [List.getElem_range']

theorem mapRange_getD_ge (T jt : Nat) (g : Nat → List Quadrant) (h : T ≤ jt) :
    (((List.range' 0 T).map g).getD jt []) = [] := by
  apply List.getD_eq_default
  simp [List.length_range']
  omega

end P4estFile

namespace P4estFile

theorem window_flatten (T f l : Nat) (cf : Nat → List Int)
    (hfl : f ≤ l) (hlT : l < T)
    (hout : ∀ jt, jt < T → (jt < f ∨ l < jt) → cf jt = []) :
    ((List.range' 0 T).map cf).flatten
      = ((List.range' f (l + 1 - f)).map cf).flatten := by
  have h1 := List.range'_append 0 f (T - f) 1
  rw [show 0 + 1 * f = f by omega, show T - f + f = T by omega] at h1
  have h2 := List.range'_append f (l + 1 - f) (T - (l + 1)) 1
  rw [show f + 1 * (l + 1 - f) = l + 1 by omega,
    show T - (l + 1) + (l + 1 - f) = T - f by omega] at h2
  rw [← h1, ← h2]
  rw [List.map_append, List.map_append, List.flatten_append, List.flatten_append]
  have hleft : ((List.range' 0 f).map cf).flatten = [] := by
    rw [List.flatten_eq_nil_iff]
    intro x hx
    obtain ⟨jt, hjt, hxeq⟩ := List.mem_map.mp hx
    obtain ⟨-, hjtf⟩ := List.mem_range'_1.mp hjt
    rw [← hxeq]
    exact hout jt (by omega) (Or.inl (by omega))
  have hright : ((List.range' (l + 1) (T - (l + 1))).map cf).flatten = [] := by
    rw [List.flatten_eq_nil_iff]
    intro x hx
    obtain ⟨jt, hjt, hxeq⟩ := List.mem_map.mp hx
    obtain ⟨hjta, hjtb⟩ := List.mem_range'_1.mp hjt
    rw [← hxeq]
    exact hout jt (by omega) (Or.inr (by omega))
  rw [hleft, hright]
  simp

theorem window_flatten_data (T f l : Nat) (cf : Nat → List Nat)
    (hfl : f ≤ l) (hlT : l < T)
    (hout : ∀ jt, jt < T → (jt < f ∨ l < jt) → cf jt = []) :
    ((List.range' 0 T).map cf).flatten
      = ((List.range' f (l + 1 - f)).map cf).flatten := by
  have h1 := List.range'_append 0 f (T - f) 1
  rw [show 0 + 1 * f = f by omega, show T - f + f = T by omega] at h1
  have h2 := List.range'_append f (l + 1 - f) (T - (l + 1)) 1
  rw [show f + 1 * (l + 1 - f) = l + 1 by omega,
    show T - (l + 1) + (l + 1 - f) = T - f by omega] at h2
  rw [← h1, ← h2]
  rw [List.map_append, List.map_append, List.flatten_append, List.flatten_append]
  have hleft : ((List.range' 0 f).map cf).flatten = [] := by
    rw [List.flatten_eq_nil_iff]
    intro x hx
    obtain ⟨jt, hjt, hxeq⟩ := List.mem_map.mp hx
    obtain ⟨-, hjtf⟩ := List.mem_range'_1.mp hjt
    rw [← hxeq]
    exact hout jt (by omega) (Or.inl (by omega))
  have hright : ((List.range' (l + 1) (T - (l + 1))).map cf).flatten = [] := by
    rw [List.flatten_eq_nil_iff]
    intro x hx
    obtain ⟨jt, hjt, hxeq⟩ := List.mem_map.mp hx
    obtain ⟨hjta, hjtb⟩ := List.mem_range'_1.mp hjt
    rw [← hxeq]
    exact hout jt (by omega) (Or.inr (by omega))
  rw [hleft, hright]
  simp

/-- Helper: the claimed equalities between the original forest and the
    rebuilt forest, shared by both partition cases. -/
theorem roundtrip_conclusions (dim3 : Bool) (numTrees : Nat) (F R : Forest)
    (hTreesLen : F.trees.length = numTrees)
    (hRtrees : R.trees = (List.range' 0 numTrees).map
      (fun jt => (F.trees.getD jt []).map (reQuad dim3)))
    (hRfirst : R.firstLocalTree = F.firstLocalTree)
    (hRlast : R.lastLocalTree = F.lastLocalTree)
    (hwin : (F.firstLocalTree = -1 ∧ F.lastLocalTree = -2) ∨
      (∃ f l : Nat, F.firstLocalTree = (f : Int) ∧ F.lastLocalTree = (l : Int)
        ∧ f ≤ l ∧ l < numTrees)) :
    (∀ jt, (R.trees.getD jt []).map (quadCoords dim3)
      = (F.trees.getD jt []).map (quadCoords dim3)) ∧
    (∀ jt, (R.trees.getD jt []).map Quadrant.userData
      = (F.trees.getD jt []).map Quadrant.userData) ∧
    p4est_deflate_quadrants dim3 R = p4est_deflate_quadrants dim3 F ∧
    p4est_deflate_data R = p4est_deflate_data F := by
  have htreeD : ∀ jt, (((List.range' 0 numTrees).map
      (fun jt => (F.trees.getD jt []).map (reQuad dim3))).getD jt [])
      = (F.trees.getD jt []).map (reQuad dim3) := by
    intro jt
    rcases Nat.lt_or_ge jt numTrees with hlt | hge
    · exact mapRange_getD_lt numTrees jt _ hlt
    · rw [mapRange_getD_ge numTrees jt _ hge,
        List.getD_eq_default _ _ (by omega), List.map_nil]
  refine ⟨?_, ?_, ?_, ?_⟩
  · intro jt
    rw [hRtrees, htreeD jt, List.map_map]
    apply List.map_congr_left
    intro q _
    simp [Function.comp]
  · intro jt
    rw [hRtrees, htreeD jt, List.map_map]
    apply List.map_congr_left
    intro q _
    simp [Function.comp]
  · rcases hwin with ⟨hf, hl⟩ | ⟨f, l, hf, hl, hfl, hlT⟩
    · unfold p4est_deflate_quadrants
      rw [deflateTreeList_sentinel F hf hl,
        deflateTreeList_sentinel R (by rw [hRfirst, hf]) (by rw [hRlast, hl])]
    · unfold p4est_deflate_quadrants
      rw [deflateTreeList_window F f l hf hl,
        deflateTreeList_window R f l (by rw [hRfirst, hf]) (by rw [hRlast, hl])]
      rw [List.flatMap_def, List.flatMap_def, List.map_map, List.map_map]
      congr 1
      apply List.map_congr_left
      intro jt hjt
      obtain ⟨hjta, hjtb⟩ := List.mem_range'_1.mp hjt
      simp only [Function.comp]
      rw [hRtrees, htreeD jt, flatMap_map_reQuad_coords]
  · rcases hwin with ⟨hf, hl⟩ | ⟨f, l, hf, hl, hfl, hlT⟩
    · unfold p4est_deflate_data
      rw [deflateTreeList_sentinel F hf hl,
        deflateTreeList_sentinel R (by rw [hRfirst, hf]) (by rw [hRlast, hl])]
    · unfold p4est_deflate_data
      rw [deflateTreeList_window F f l hf hl,
        deflateTreeList_window R f l (by rw [hRfirst, hf]) (by rw [hRlast, hl])]
      rw [List.flatMap_def, List.flatMap_def, List.map_map, List.map_map]
      congr 1
      apply List.map_congr_left
      intro jt hjt
      obtain ⟨hjta, hjtb⟩ := List.mem_range'_1.mp hjt
      simp only [Function.comp]
      rw [hRtrees, htreeD jt, flatMap_map_reQuad_data]

end P4estFile

namespace P4estFile

/-- C1.  Deflate/inflate round trip: for every forest consistent with its
    communicator, partition map and per-tree prefix sums, inflating the
    coordinate array (and the payload array) returned by deflate with the
    same partition data yields a forest with revision 0, the same global and
    local quadrant counts, the same payload size, the same local tree
    window, and the same per-quadrant (x, y, [z], level) tuples and payload
    bytes in the same tree-major order; in particular deflate of the new
    forest returns arrays equal to deflate of the original. -/
theorem deflate_inflate_roundtrip (dim3 : Bool) (numProcs rank numTrees : Nat)
    (gfq pertree : List Nat) (F : Forest)
    (h : ForestValid numProcs rank numTrees gfq pertree F) :
    (p4est_inflate dim3 numProcs rank gfq pertree numTrees
      (p4est_deflate_quadrants dim3 F) F.dataSize
      (p4est_deflate_data F)).revision = 0 ∧
    (p4est_inflate dim3 numProcs rank gfq pertree numTrees
      (p4est_deflate_quadrants dim3 F) F.dataSize
      (p4est_deflate_data F)).numTrees = F.numTrees ∧
    (p4est_inflate dim3 numProcs rank gfq pertree numTrees
      (p4est_deflate_quadrants dim3 F) F.dataSize
      (p4est_deflate_data F)).globalNumQuadrants = F.globalNumQuadrants ∧
    (p4est_inflate dim3 numProcs rank gfq pertree numTrees
      (p4est_deflate_quadrants dim3 F) F.dataSize
      (p4est_deflate_data F)).localNumQuadrants = F.localNumQuadrants ∧
    (p4est_inflate dim3 numProcs rank gfq pertree numTrees
      (p4est_deflate_quadrants dim3 F) F.dataSize
      (p4est_deflate_data F)).dataSize = F.dataSize ∧
    (p4est_inflate dim3 numProcs rank gfq pertree numTrees
      (p4est_deflate_quadrants dim3 F) F.dataSize
      (p4est_deflate_data F)).firstLocalTree = F.firstLocalTree ∧
    (p4est_inflate dim3 numProcs rank gfq pertree numTrees
      (p4est_deflate_quadrants dim3 F) F.dataSize
      (p4est_deflate_data F)).lastLocalTree = F.lastLocalTree ∧
    (∀ jt, (((p4est_inflate dim3 numProcs rank gfq pertree numTrees
      (p4est_deflate_quadrants dim3 F) F.dataSize
      (p4est_deflate_data F)).trees.getD jt []).map (quadCoords dim3))
      = (F.trees.getD jt []).map (quadCoords dim3)) ∧
    (∀ jt, (((p4est_inflate dim3 numProcs rank gfq pertree numTrees
      (p4est_deflate_quadrants dim3 F) F.dataSize
      (p4est_deflate_data F)).trees.getD jt []).map Quadrant.userData)
      = (F.trees.getD jt []).map Quadrant.userData) ∧
    p4est_deflate_quadrants dim3 (p4est_inflate dim3 numProcs rank gfq pertree
      numTrees (p4est_deflate_quadrants dim3 F) F.dataSize
      (p4est_deflate_data F)) = p4est_deflate_quadrants dim3 F ∧
    p4est_deflate_data (p4est_inflate dim3 numProcs rank gfq pertree numTrees
      (p4est_deflate_quadrants dim3 F) F.dataSize
      (p4est_deflate_data F)) = p4est_deflate_data F := by
  obtain ⟨hrank, hgfqLen, hptLen, hFT, hTreesLen, hpt0, hgfqMono, hptMono, hTot,
    hcount, hFL, hLL, hdata, hlocal, hglobal⟩ := h
  have hchain := getD_chain pertree numTrees hptMono
  by_cases hcase : gfq.getD rank 0 < gfq.getD (rank + 1) 0
  · -- the rank owns at least one quadrant
    rw [if_pos hcase] at hFL hLL
    have hg1le : gfq.getD (rank + 1) 0 ≤ gfq.getD numProcs 0 :=
      getD_chain gfq numProcs hgfqMono (rank + 1) numProcs (by omega) (le_refl _)
    obtain ⟨hfT, hf1, hf2⟩ := sc_bsearch_range_spec (gfq.getD rank 0) pertree
      numTrees hptLen (by rw [hpt0]; omega) (by rw [← hTot]; omega)
    obtain ⟨hlT, hl1a, hl2a⟩ := sc_bsearch_range_spec (gfq.getD (rank + 1) 0 - 1)
      pertree numTrees hptLen (by rw [hpt0]; omega) (by rw [← hTot]; omega)
    have hl1 : pertree.getD (sc_bsearch_range (gfq.getD (rank + 1) 0 - 1) pertree) 0
        < gfq.getD (rank + 1) 0 := by omega
    have hl2 : gfq.getD (rank + 1) 0
        ≤ pertree.getD (sc_bsearch_range (gfq.getD (rank + 1) 0 - 1) pertree + 1) 0 := by
      omega
    have hfl : sc_bsearch_range (gfq.getD rank 0) pertree
        ≤ sc_bsearch_range (gfq.getD (rank + 1) 0 - 1) pertree := by
      by_contra hcon
      have hch := hchain (sc_bsearch_range (gfq.getD (rank + 1) 0 - 1) pertree + 1)
        (sc_bsearch_range (gfq.getD rank 0) pertree) (by omega) (by omega)
      omega
    have hempty : ∀ jt, jt < numTrees →
        (jt < sc_bsearch_range (gfq.getD rank 0) pertree ∨
          sc_bsearch_range (gfq.getD (rank + 1) 0 - 1) pertree < jt) →
        F.trees.getD jt [] = [] := by
      intro jt hjt hor
      rw [← List.length_eq_zero, hcount jt hjt]
      unfold treeOverlap
      rcases hor with hor | hor
      · have hch := hchain (jt + 1) (sc_bsearch_range (gfq.getD rank 0) pertree)
          (by omega) (by omega)
        omega
      · have hch := hchain
          (sc_bsearch_range (gfq.getD (rank + 1) 0 - 1) pertree + 1) jt
          (by omega) (by omega)
        omega
    have hstreamC : ((List.range' 0 numTrees).map
        (fun jt => (F.trees.getD jt []).flatMap (quadCoords dim3))).flatten
        = p4est_deflate_quadrants dim3 F := by
      rw [window_flatten numTrees (sc_bsearch_range (gfq.getD rank 0) pertree)
        (sc_bsearch_range (gfq.getD (rank + 1) 0 - 1) pertree) _ hfl hlT
        (fun jt hjt hor => by rw [hempty jt hjt hor]; rfl)]
      unfold p4est_deflate_quadrants
      rw [deflateTreeList_window F _ _ hFL hLL, List.flatMap_def, List.map_map]
      rfl
    have hstreamD : ((List.range' 0 numTrees).map
        (fun jt => (F.trees.getD jt []).flatMap Quadrant.userData)).flatten
        = p4est_deflate_data F := by
      rw [window_flatten_data numTrees (sc_bsearch_range (gfq.getD rank 0) pertree)
        (sc_bsearch_range (gfq.getD (rank + 1) 0 - 1) pertree) _ hfl hlT
        (fun jt hjt hor => by rw [hempty jt hjt hor]; rfl)]
      unfold p4est_deflate_data
      rw [deflateTreeList_window F _ _ hFL hLL, List.flatMap_def, List.map_map]
      rfl
    have hrun := inflateTreesAux_run dim3 F.dataSize pertree numTrees
      (sc_bsearch_range (gfq.getD rank 0) pertree)
      (sc_bsearch_range (gfq.getD (rank + 1) 0 - 1) pertree)
      (gfq.getD rank 0) (gfq.getD (rank + 1) 0) F.trees hptLen hTreesLen hptMono
      hfl hlT hf1 hf2 hl1 hl2 hcount hdata numTrees 0 (by omega)
    rw [if_pos (Nat.zero_le _), hpt0, Nat.max_zero, Nat.sub_zero] at hrun
    rw [hstreamC, hstreamD] at hrun
    have hmain : p4est_inflate dim3 numProcs rank gfq pertree numTrees
        (p4est_deflate_quadrants dim3 F) F.dataSize (p4est_deflate_data F)
        = Forest.mk numTrees F.firstLocalTree F.lastLocalTree
          ((List.range' 0 numTrees).map
            (fun jt => (F.trees.getD jt []).map (reQuad dim3)))
          F.dataSize F.localNumQuadrants F.globalNumQuadrants 0 := by
      unfold p4est_inflate
      dsimp only
      rw [if_pos (show 0 < gfq.getD (rank + 1) 0 - gfq.getD rank 0 by omega)]
      dsimp only
      rw [List.range_eq_range', hrun, hFL, hLL, hlocal, hglobal]
    obtain ⟨hc1, hc2, hc3, hc4⟩ := roundtrip_conclusions dim3 numTrees F
      (p4est_inflate dim3 numProcs rank gfq pertree numTrees
        (p4est_deflate_quadrants dim3 F) F.dataSize (p4est_deflate_data F))
      hTreesLen (by rw [hmain]) (by rw [hmain]) (by rw [hmain])
      (Or.inr ⟨sc_bsearch_range (gfq.getD rank 0) pertree,
        sc_bsearch_range (gfq.getD (rank + 1) 0 - 1) pertree, hFL, hLL, hfl, hlT⟩)
    refine ⟨by rw [hmain], by rw [hmain, hFT], by rw [hmain], by rw [hmain],
      by rw [hmain], by rw [hmain], by rw [hmain], hc1, hc2, hc3, hc4⟩
  · -- the rank owns no quadrants
    rw [if_neg hcase] at hFL hLL
    have hsub0 : gfq.getD (rank + 1) 0 - gfq.getD rank 0 = 0 := by omega
    have hempty : ∀ jt, jt < numTrees → F.trees.getD jt [] = [] := by
      intro jt hjt
      rw [← List.length_eq_zero, hcount jt hjt]
      unfold treeOverlap
      omega
    have hrep : List.replicate numTrees ([] : List Quadrant)
        = (List.range' 0 numTrees).map
          (fun jt => (F.trees.getD jt []).map (reQuad dim3)) := by
      symm
      rw [List.eq_replicate_iff]
      refine ⟨by simp [List.length_range'], ?_⟩
      intro b hb
      obtain ⟨jt, hjt, hbe⟩ := List.mem_map.mp hb
      obtain ⟨-, hjtb⟩ := List.mem_range'_1.mp hjt
      rw [← hbe, hempty jt (by omega), List.map_nil]
    have hlocal0 : F.localNumQuadrants = 0 := by omega
    have hmain : p4est_inflate dim3 numProcs rank gfq pertree numTrees
        (p4est_deflate_quadrants dim3 F) F.dataSize (p4est_deflate_data F)
        = Forest.mk numTrees F.firstLocalTree F.lastLocalTree
          ((List.range' 0 numTrees).map
            (fun jt => (F.trees.getD jt []).map (reQuad dim3)))
          F.dataSize F.localNumQuadrants F.globalNumQuadrants 0 := by
      unfold p4est_inflate
      dsimp only
      rw [hsub0, if_neg (lt_irrefl 0)]
      dsimp only
      rw [inflateTreesAux_sentinel, List.length_range, hrep, hFL, hLL,
        hlocal0, hglobal]
    obtain ⟨hc1, hc2, hc3, hc4⟩ := roundtrip_conclusions dim3 numTrees F
      (p4est_inflate dim3 numProcs rank gfq pertree numTrees
        (p4est_deflate_quadrants dim3 F) F.dataSize (p4est_deflate_data F))
      hTreesLen (by rw [hmain]) (by rw [hmain]) (by rw [hmain])
      (Or.inl ⟨hFL, hLL⟩)
    refine ⟨by rw [hmain], by rw [hmain, hFT], by rw [hmain], by rw [hmain],
      by rw [hmain], by rw [hmain], by rw [hmain], hc1, hc2, hc3, hc4⟩

end P4estFile

namespace P4estFile

/-- Witness for C1: the three-tree 3D forest with quadrant counts 2, 0, 3 on
    a single rank; inflating its deflation reproduces its deflation, resets
    the revision to 0 and keeps the counts. -/
theorem deflate_inflate_roundtrip_witness :
    ForestValid 1 0 3 [0, 5] [0, 2, 2, 5] exampleForest ∧
    (p4est_inflate true 1 0 [0, 5] [0, 2, 2, 5] 3
      (p4est_deflate_quadrants true exampleForest) exampleForest.dataSize
      (p4est_deflate_data exampleForest)).revision = 0 ∧
    (p4est_inflate true 1 0 [0, 5] [0, 2, 2, 5] 3
      (p4est_deflate_quadrants true exampleForest) exampleForest.dataSize
      (p4est_deflate_data exampleForest)).localNumQuadrants
      = exampleForest.localNumQuadrants ∧
    p4est_deflate_quadrants true (p4est_inflate true 1 0 [0, 5] [0, 2, 2, 5] 3
      (p4est_deflate_quadrants true exampleForest) exampleForest.dataSize
      (p4est_deflate_data exampleForest))
      = p4est_deflate_quadrants true exampleForest ∧
    p4est_deflate_data (p4est_inflate true 1 0 [0, 5] [0, 2, 2, 5] 3
      (p4est_deflate_quadrants true exampleForest) exampleForest.dataSize
      (p4est_deflate_data exampleForest))
      = p4est_deflate_data exampleForest :=
  ⟨by decide,
   (deflate_inflate_roundtrip true 1 0 3 [0, 5] [0, 2, 2, 5] exampleForest
     (by decide)).1,
   (deflate_inflate_roundtrip true 1 0 3 [0, 5] [0, 2, 2, 5] exampleForest
     (by decide)).2.2.2.1,
   (deflate_inflate_roundtrip true 1 0 3 [0, 5] [0, 2, 2, 5] exampleForest
     (by decide)).2.2.2.2.2.2.2.2.2.1,
   (deflate_inflate_roundtrip true 1 0 3 [0, 5] [0, 2, 2, 5] exampleForest
     (by decide)).2.2.2.2.2.2.2.2.2.2⟩

end P4estFile

namespace P4estFile

/-! ## Theorems: decimal fields and section header layout -/

theorem decDigitsArb_mem (k n : Nat) :
    ∀ b ∈ (List.range k).reverse.map (fun i => 48 + n / 10 ^ i % 10),
      48 ≤ b ∧ b ≤ 57 := by
  intro b hb
  obtain ⟨i, hi, hbe⟩ := List.mem_map.mp hb
  have : n / 10 ^ i % 10 < 10 := Nat.mod_lt _ (by omega)
  omega

theorem decDigitsArb_foldl (k n : Nat) : ∀ a,
    ((List.range k).reverse.map (fun i => 48 + n / 10 ^ i % 10)).foldl
      (fun a b => 10 * a + (b - 48)) a = a * 10 ^ k + n % 10 ^ k := by
  induction k with
  | zero =>
    intro a
    simp [Nat.mod_one]
  | succ k ih =>
    intro a
    rw [List.range_succ, List.reverse_append]
    simp only [List.reverse_cons, List.reverse_nil, List.nil_append,
      List.map_cons, List.map_nil, List.map_append, List.cons_append,
      List.foldl_cons]
    rw [ih]
    have hd : n / 10 ^ k % 10 < 10 := Nat.mod_lt _ (by omega)
    have hmul : (10 : Nat) ^ (k + 1) = 10 ^ k * 10 := by ring
    rw [hmul, Nat.mod_mul]
    have h48 : 10 * a + (48 + n / 10 ^ k % 10 - 48) = 10 * a + n / 10 ^ k % 10 := by
      omega
    rw [h48]
    ring

theorem dropWhile_digits (l : List Nat) (h : ∀ b ∈ l, 48 ≤ b ∧ b ≤ 57) :
    l.dropWhile (fun b => decide (b = spByte)) = l := by
  cases l with
  | nil => rfl
  | cons b t =>
    rw [List.dropWhile_cons]
    have := h b (by simp)
    rw [if_neg (by simp [spByte]; omega)]

theorem takeWhile_digits (l : List Nat) (h : ∀ b ∈ l, 48 ≤ b ∧ b ≤ 57) :
    l.takeWhile (fun b => decide (48 ≤ b ∧ b ≤ 57)) = l := by
  induction l with
  | nil => rfl
  | cons b t ih =>
    rw [List.takeWhile_cons]
    have hb := h b (by simp)
    rw [if_pos (by simp; omega)]
    rw [ih (fun c hc => h c (by simp [hc]))]

theorem parseAtol_digits (l : List Nat) (h : ∀ b ∈ l, 48 ≤ b ∧ b ≤ 57) :
    parseAtol l = l.foldl (fun a b => 10 * a + (b - 48)) 0 := by
  unfold parseAtol
  rw [dropWhile_digits l h, takeWhile_digits l h]

theorem parseAtol_decDigits13 (n : Nat) (h : n < 10 ^ 13) :
    parseAtol (decDigits13 n) = n := by
  unfold decDigits13
  rw [parseAtol_digits _ (decDigitsArb_mem 13 n), decDigitsArb_foldl 13 n 0]
  rw [Nat.zero_mul, Nat.zero_add, Nat.mod_eq_of_lt h]

theorem parseAtol_decDigits16 (n : Nat) (h : n < 10 ^ 16) :
    parseAtol (decDigits16 n) = n := by
  unfold decDigits16
  rw [parseAtol_digits _ (decDigitsArb_mem 16 n), decDigitsArb_foldl 16 n 0]
  rw [Nat.zero_mul, Nat.zero_add, Nat.mod_eq_of_lt h]

end P4estFile

namespace P4estFile

theorem getD_set_ne (l : List Nat) (i j a : Nat) (h : i ≠ j) :
    (l.set i a).getD j 0 = l.getD j 0 := by
  rw [List.getD_eq_getElem?_getD, List.getD_eq_getElem?_getD,
    List.getElem?_set_ne h]

theorem getD_set_self (l : List Nat) (i a : Nat) (h : i < l.length) :
    (l.set i a).getD i 0 = a := by
  rw [List.getD_eq_getElem?_getD, List.getElem?_set]
  simp [h]

theorem userString47_eq (u : List Nat) (hu : u.length = 47) :
    userString47 u = u := by
  simp [userString47, hu]

theorem shb_getD0 (b ds : Nat) (u : List Nat) :
    (sectionHeaderBytes b ds u).getD 0 0 = b := rfl

theorem shb_getD1 (b ds : Nat) (u : List Nat) :
    (sectionHeaderBytes b ds u).getD 1 0 = spByte := rfl

theorem shb_getD_digit (b ds : Nat) (u : List Nat) (i : Nat)
    (h2 : 2 ≤ i) (h14 : i ≤ 14) :
    48 ≤ (sectionHeaderBytes b ds u).getD i 0 ∧
      (sectionHeaderBytes b ds u).getD i 0 ≤ 57 := by
  unfold sectionHeaderBytes
  obtain ⟨k, hk⟩ : ∃ k, i = k + 2 := ⟨i - 2, by omega⟩
  subst hk
  rw [List.getD_cons_succ, List.getD_cons_succ]
  rw [List.getD_append _ _ _ k (by simp [userString47]; omega)]
  rw [List.getD_append _ _ _ k (by simp; omega)]
  rw [List.getD_append _ _ _ k (by simp [decDigits13]; omega)]
  have hlt : k < (decDigits13 ds).length := by simp [decDigits13]; omega
  apply decDigitsArb_mem 13 ds
  rw [list_getD_eq_getElem _ _ hlt]
  exact List.getElem_mem hlt

theorem shb_getD15 (b ds : Nat) (u : List Nat) :
    (sectionHeaderBytes b ds u).getD 15 0 = nlByte := by
  unfold sectionHeaderBytes
  rw [List.getD_cons_succ, List.getD_cons_succ]
  rw [List.getD_append _ _ _ 13 (by simp [userString47])]
  rw [List.getD_append _ _ _ 13 (by simp)]
  rw [List.getD_append_right (decDigits13 ds) [nlByte] _ 13 (by simp)]
  simp

theorem shb_getD16 (b ds : Nat) (u : List Nat) (hu : u.length = 47) :
    (sectionHeaderBytes b ds u).getD 16 0 = u.getD 0 0 := by
  unfold sectionHeaderBytes
  rw [List.getD_cons_succ, List.getD_cons_succ]
  rw [List.getD_append _ _ _ 14 (by simp [userString47_eq u hu, hu])]
  rw [List.getD_append_right (decDigits13 ds ++ [nlByte]) (userString47 u) _ 14
    (by simp)]
  rw [userString47_eq u hu]
  simp

theorem shb_getD63 (b ds : Nat) (u : List Nat) (hu : u.length = 47) :
    (sectionHeaderBytes b ds u).getD 63 0 = nlByte := by
  unfold sectionHeaderBytes
  rw [List.getD_cons_succ, List.getD_cons_succ]
  rw [List.getD_append_right (decDigits13 ds ++ [nlByte] ++ userString47 u)
    [nlByte] _ 61 (by simp [userString47_eq u hu, hu])]
  simp [userString47_eq u hu, hu]

theorem shb_digits (b ds : Nat) (u : List Nat) :
    ((sectionHeaderBytes b ds u).drop 2).take 13 = decDigits13 ds := by
  unfold sectionHeaderBytes
  rw [List.drop_succ_cons, List.drop_succ_cons, List.drop_zero]
  rw [show (13 : Nat) = (decDigits13 ds).length by simp]
  rw [List.append_assoc, List.append_assoc, List.take_left]

theorem shb_user (b ds : Nat) (u : List Nat) (hu : u.length = 47) :
    ((sectionHeaderBytes b ds u).drop 16).take 47 = u := by
  unfold sectionHeaderBytes
  rw [List.drop_succ_cons, List.drop_succ_cons]
  rw [show (14 : Nat) = (decDigits13 ds ++ [nlByte]).length by simp]
  rw [List.append_assoc, List.drop_left, userString47_eq u hu]
  rw [show (47 : Nat) = u.length from hu.symm, List.take_left]

end P4estFile

namespace P4estFile

@[simp] theorem padBytes_getD0 (L : Nat) : (padBytes L).getD 0 0 = nlByte := rfl

theorem padBytes_getD_last (L : Nat) :
    (padBytes L).getD (padLen L - 1) 0 = nlByte := by
  have h2 := padLen_ge_two L
  unfold padBytes
  obtain ⟨k, hk⟩ : ∃ k, padLen L - 1 = k + 1 := ⟨padLen L - 2, by omega⟩
  rw [hk, List.getD_cons_succ]
  rw [List.getD_append_right _ _ _ k (by simp; omega)]
  have hke : k - (List.replicate (padLen L - 2) spByte).length = 0 := by
    simp
    omega
  rw [List.getD_eq_getElem?_getD, hke]
  rfl

theorem readAt_append (pre Z : List Nat) (k n : Nat) :
    readAt (pre ++ Z) (pre.length + k) n = readAt Z k n := by
  unfold readAt
  rw [List.drop_append]

theorem readAt_append_zero (pre Z : List Nat) (n : Nat) :
    readAt (pre ++ Z) pre.length n = readAt Z 0 n := by
  have := readAt_append pre Z 0 n
  rw [Nat.add_zero] at this
  rw [this]

theorem sec_user_length (sec : DataSection) (gnq : Nat) (h : sec.wf gnq) :
    sec.userStr.length = 47 := by
  cases sec <;> simp [DataSection.userStr] <;> simp [DataSection.wf] at h <;> omega

theorem sec_ds_lt (sec : DataSection) (gnq : Nat) (h : sec.wf gnq) :
    sec.dataSize < 10 ^ 13 := by
  cases sec <;> simp [DataSection.dataSize] <;> simp [DataSection.wf] at h <;> omega

theorem sec_curSize (sec : DataSection) (gnq : Nat) (h : sec.wf gnq) :
    (if sec.btype = 70 then gnq * sec.dataSize else sec.dataSize)
      = sec.payloadLen := by
  cases sec with
  | hblock d u => rfl
  | fblock s g u =>
    simp only [DataSection.btype, DataSection.dataSize, DataSection.payloadLen,
      DataSection.payload, if_true]
    simp [DataSection.wf] at h
    omega

theorem sec_btype_cases (sec : DataSection) :
    sec.btype = 72 ∨ sec.btype = 70 := by
  cases sec
  · exact Or.inl rfl
  · exact Or.inr rfl

/-- Helper: one iteration of the info loop on a complete well-formed section
    parses its metadata and continues past the section. -/
theorem infoLoop_step (gnq : Nat) (sec : DataSection) (pre rest : List Nat)
    (fuel : Nat) (hsec : sec.wf gnq) :
    infoLoop gnq (pre ++ (encodeSection sec ++ rest)) (fuel + 1) pre.length
      = sec.meta :: infoLoop gnq (pre ++ (encodeSection sec ++ rest)) fuel
          (pre.length + (encodeSection sec).length) := by
  have hu := sec_user_length sec gnq hsec
  have hds := sec_ds_lt sec gnq hsec
  have hshbLen : (sectionHeaderBytes sec.btype sec.dataSize sec.userStr).length
      = 64 := sectionHeaderBytes_length _ _ _ (by omega)
  have hshbLenF : (sectionHeaderBytes sec.btype sec.dataSize sec.userStr).length
      = numFieldHeaderBytes := hshbLen
  have hencAssoc : encodeSection sec ++ rest
      = sectionHeaderBytes sec.btype sec.dataSize sec.userStr
        ++ (sec.payload ++ (padBytes sec.payloadLen ++ rest)) := by
    unfold encodeSection
    simp [List.append_assoc]
  have hhdr : readAt (pre ++ (encodeSection sec ++ rest)) pre.length
      numFieldHeaderBytes
      = sectionHeaderBytes sec.btype sec.dataSize sec.userStr := by
    rw [readAt_append_zero, hencAssoc]
    unfold readAt
    rw [List.drop_zero]
    rw [show numFieldHeaderBytes
      = (sectionHeaderBytes sec.btype sec.dataSize sec.userStr).length
      from hshbLen.symm]
    rw [List.take_left]
  have hpadRead : readAt (pre ++ (encodeSection sec ++ rest))
      (pre.length + numFieldHeaderBytes + sec.payloadLen)
      (padLen sec.payloadLen) = padBytes sec.payloadLen := by
    rw [Nat.add_assoc, readAt_append, hencAssoc]
    unfold readAt
    have hdrop : (sectionHeaderBytes sec.btype sec.dataSize sec.userStr
        ++ (sec.payload ++ (padBytes sec.payloadLen ++ rest))).drop
        (numFieldHeaderBytes + sec.payloadLen)
        = padBytes sec.payloadLen ++ rest := by
      rw [← List.append_assoc]
      rw [show numFieldHeaderBytes + sec.payloadLen
        = ((sectionHeaderBytes sec.btype sec.dataSize sec.userStr)
          ++ sec.payload).length by
          simp [hshbLen, DataSection.payloadLen, numFieldHeaderBytes]]
      rw [List.drop_left]
    rw [hdrop]
    rw [show padLen sec.payloadLen = (padBytes sec.payloadLen).length
      from (padBytes_length _).symm]
    rw [List.take_left]
  rw [infoLoop]
  dsimp only
  rw [hhdr]
  rw [if_pos hshbLenF]
  rw [if_pos (by rw [shb_getD0]; exact sec_btype_cases sec)]
  rw [if_pos (shb_getD15 sec.btype sec.dataSize sec.userStr)]
  rw [shb_digits, parseAtol_decDigits13 _ hds]
  rw [if_pos (shb_getD63 sec.btype sec.dataSize sec.userStr hu)]
  rw [shb_user sec.btype sec.dataSize sec.userStr hu]
  rw [shb_getD0]
  rw [sec_curSize sec gnq hsec]
  rw [hpadRead, padBytes_length]
  rw [if_pos ⟨by
      rw [List.getD_append _ _ _ 0 (by
        rw [padBytes_length]
        have := padLen_ge_two sec.payloadLen
        omega)]
      exact padBytes_getD0 sec.payloadLen,
    by
      rw [List.getD_append _ _ _ (padLen sec.payloadLen - 1) (by
        rw [padBytes_length]
        have := padLen_ge_two sec.payloadLen
        omega)]
      exact padBytes_getD_last sec.payloadLen⟩]
  have hposEq : pre.length + numFieldHeaderBytes + sec.payloadLen
      + padLen sec.payloadLen = pre.length + (encodeSection sec).length := by
    rw [encodeSection_length sec gnq hsec]
    simp only [numFieldHeaderBytes]
    omega
  rw [hposEq]
  rfl

end P4estFile

namespace P4estFile

/-- Helper: the info loop stops with no entry when fewer than 64 bytes
    remain at the current position. -/
theorem infoLoop_past (gnq : Nat) (file : List Nat) (fuel pos : Nat)
    (h : file.length < pos + 64) :
    infoLoop gnq file fuel pos = [] := by
  cases fuel with
  | zero => rfl
  | succ fuel =>
    rw [infoLoop]
    dsimp only
    rw [if_neg]
    intro hcon
    rw [readAt] at hcon
    simp [numFieldHeaderBytes] at hcon
    omega

/-- Helper: the info loop walks a run of complete well-formed sections,
    reporting their metadata in order, and continues behind them. -/
theorem infoLoop_run (gnq : Nat) (ss : List DataSection) (post : List Nat)
    (fuel : Nat) (hwf : ∀ s0 ∈ ss, s0.wf gnq) :
    ∀ pre : List Nat,
      infoLoop gnq (pre ++ ((ss.map encodeSection).flatten ++ post))
          (fuel + ss.length) pre.length
        = ss.map DataSection.meta
          ++ infoLoop gnq (pre ++ ((ss.map encodeSection).flatten ++ post)) fuel
            (pre.length + ((ss.map encodeSection).flatten).length) := by
  induction ss with
  | nil =>
    intro pre
    simp
  | cons sec rest ih =>
    intro pre
    have hsec := hwf sec (by simp)
    have hassoc : (((sec :: rest).map encodeSection).flatten ++ post)
        = encodeSection sec ++ ((rest.map encodeSection).flatten ++ post) := by
      simp [List.append_assoc]
    have hlen2 : (((sec :: rest).map encodeSection).flatten).length
        = (encodeSection sec).length
          + ((rest.map encodeSection).flatten).length := by
      simp
    rw [hassoc, hlen2]
    have hfuel : fuel + (sec :: rest).length = (fuel + rest.length) + 1 := by
      simp [List.length_cons]
      omega
    rw [hfuel]
    rw [infoLoop_step gnq sec pre _ (fuel + rest.length) hsec]
    have hfile : pre ++ (encodeSection sec
          ++ ((rest.map encodeSection).flatten ++ post))
        = (pre ++ encodeSection sec)
          ++ ((rest.map encodeSection).flatten ++ post) := by
      rw [List.append_assoc]
    rw [hfile]
    have hpre2 : pre.length + (encodeSection sec).length
        = (pre ++ encodeSection sec).length := by
      simp
    rw [hpre2]
    rw [ih (fun s0 hs0 => hwf s0 (by simp [hs0])) (pre ++ encodeSection sec)]
    rw [List.map_cons, List.cons_append]
    rw [List.length_append]
    rw [Nat.add_assoc]

end P4estFile

namespace P4estFile

theorem getD_take (l : List Nat) (n i : Nat) (h : i < n) :
    (l.take n).getD i 0 = l.getD i 0 := by
  rw [List.getD_eq_getElem?_getD, List.getD_eq_getElem?_getD,
    List.getElem?_take, if_pos h]

theorem getD_drop (l : List Nat) (c j : Nat) :
    (l.drop c).getD j 0 = l.getD (c + j) 0 := by
  rw [List.getD_eq_getElem?_getD, List.getD_eq_getElem?_getD,
    List.getElem?_drop]

/-- Helper: the info loop on a strict prefix of a well-formed trailing
    section discards the truncated entry and stops, except when at least one
    padding byte was read, the padding length is 17 and the section's user
    string begins with a newline: then the stale-buffer newline check
    accidentally passes and the truncated section's metadata is kept. -/
theorem infoLoop_truncated (gnq : Nat) (sec : DataSection) (pre : List Nat)
    (fuel k : Nat) (hsec : sec.wf gnq) (hk : k < (encodeSection sec).length) :
    infoLoop gnq (pre ++ (encodeSection sec).take k) (fuel + 1) pre.length
      = if 64 + sec.payloadLen + 1 ≤ k ∧ padLen sec.payloadLen = 17
            ∧ sec.userStr.getD 0 0 = nlByte
        then [sec.meta] else [] := by
  have hu := sec_user_length sec gnq hsec
  have hds := sec_ds_lt sec gnq hsec
  have hencLen := encodeSection_length sec gnq hsec
  have hp2 := padLen_ge_two sec.payloadLen
  have hp17 := padLen_le sec.payloadLen
  have hshbLen : (sectionHeaderBytes sec.btype sec.dataSize sec.userStr).length
      = 64 := sectionHeaderBytes_length _ _ _ (by omega)
  have hshbLenF : (sectionHeaderBytes sec.btype sec.dataSize sec.userStr).length
      = numFieldHeaderBytes := hshbLen
  have htLen : ((encodeSection sec).take k).length = k := by
    rw [List.length_take]
    omega
  rcases Nat.lt_or_ge k 64 with hk64 | hk64
  · -- truncation inside the 64-byte header: short read, no entry
    rw [if_neg (by omega)]
    rw [infoLoop]
    dsimp only
    rw [if_neg]
    intro hcon
    rw [readAt_append_zero] at hcon
    unfold readAt at hcon
    rw [List.drop_zero, List.length_take, htLen] at hcon
    simp [numFieldHeaderBytes] at hcon
    omega
  · -- complete header, truncation in the payload or the padding
    have hhdr : readAt (pre ++ (encodeSection sec).take k) pre.length
        numFieldHeaderBytes
        = sectionHeaderBytes sec.btype sec.dataSize sec.userStr := by
      rw [readAt_append_zero]
      unfold readAt
      rw [List.drop_zero, List.take_take]
      rw [show min numFieldHeaderBytes k = (sectionHeaderBytes sec.btype
          sec.dataSize sec.userStr).length by
        rw [hshbLen]
        simp [numFieldHeaderBytes]
        omega]
      unfold encodeSection
      rw [List.append_assoc, List.take_left]
    have hdropEnc : (encodeSection sec).drop (numFieldHeaderBytes
        + sec.payloadLen) = padBytes sec.payloadLen := by
      unfold encodeSection
      rw [show numFieldHeaderBytes + sec.payloadLen
        = ((sectionHeaderBytes sec.btype sec.dataSize sec.userStr)
          ++ sec.payload).length by
        simp [hshbLen, DataSection.payloadLen, numFieldHeaderBytes]]
      rw [List.drop_left]
    have hpadRead : readAt (pre ++ (encodeSection sec).take k)
        (pre.length + numFieldHeaderBytes + sec.payloadLen)
        (padLen sec.payloadLen)
        = (padBytes sec.payloadLen).take
            (k - (numFieldHeaderBytes + sec.payloadLen)) := by
      rw [Nat.add_assoc, readAt_append]
      unfold readAt
      rw [List.drop_take, hdropEnc, List.take_take]
      rw [show min (padLen sec.payloadLen)
          (k - (numFieldHeaderBytes + sec.payloadLen))
          = k - (numFieldHeaderBytes + sec.payloadLen) by
        simp [numFieldHeaderBytes] at hencLen ⊢
        omega]
    have hprLen : ((padBytes sec.payloadLen).take
        (k - (numFieldHeaderBytes + sec.payloadLen))).length
        = k - (numFieldHeaderBytes + sec.payloadLen) := by
      rw [List.length_take, padBytes_length]
      simp [numFieldHeaderBytes] at hencLen ⊢
      omega
    rw [infoLoop]
    dsimp only
    rw [hhdr]
    rw [if_pos hshbLenF]
    rw [if_pos (by rw [shb_getD0]; exact sec_btype_cases sec)]
    rw [if_pos (shb_getD15 sec.btype sec.dataSize sec.userStr)]
    rw [shb_digits, parseAtol_decDigits13 _ hds]
    rw [if_pos (shb_getD63 sec.btype sec.dataSize sec.userStr hu)]
    rw [shb_user sec.btype sec.dataSize sec.userStr hu]
    rw [shb_getD0]
    rw [sec_curSize sec gnq hsec]
    rw [hpadRead, hprLen]
    have hstale15 : (((sectionHeaderBytes sec.btype sec.dataSize
        sec.userStr).set 15 0).set 63 0).getD 15 0 = 0 := by
      rw [getD_set_ne _ 63 15 0 (by omega)]
      exact getD_set_self _ 15 0 (by omega)
    have hstale_ne : ∀ j, j ≠ 15 → j ≠ 63 →
        (((sectionHeaderBytes sec.btype sec.dataSize
          sec.userStr).set 15 0).set 63 0).getD j 0
        = (sectionHeaderBytes sec.btype sec.dataSize sec.userStr).getD j 0 := by
      intro j h15 h63
      rw [getD_set_ne _ 63 j 0 (fun he => h63 he.symm),
        getD_set_ne _ 15 j 0 (fun he => h15 he.symm)]
    by_cases hcnt : 64 + sec.payloadLen + 1 ≤ k
    · -- at least one padding byte was read
      have hb0 : ((padBytes sec.payloadLen).take
          (k - (numFieldHeaderBytes + sec.payloadLen))
          ++ (((sectionHeaderBytes sec.btype sec.dataSize
            sec.userStr).set 15 0).set 63 0).drop
            (k - (numFieldHeaderBytes + sec.payloadLen))).getD 0 0
          = nlByte := by
        rw [List.getD_append _ _ _ 0 (by
          rw [hprLen]
          simp [numFieldHeaderBytes]
          omega)]
        rw [getD_take _ _ _ (by simp [numFieldHeaderBytes]; omega)]
        exact padBytes_getD0 sec.payloadLen
      have hbLast : ((padBytes sec.payloadLen).take
          (k - (numFieldHeaderBytes + sec.payloadLen))
          ++ (((sectionHeaderBytes sec.btype sec.dataSize
            sec.userStr).set 15 0).set 63 0).drop
            (k - (numFieldHeaderBytes + sec.payloadLen))).getD
            (padLen sec.payloadLen - 1) 0
          = (((sectionHeaderBytes sec.btype sec.dataSize
            sec.userStr).set 15 0).set 63 0).getD
            (padLen sec.payloadLen - 1) 0 := by
        rw [List.getD_append_right _ _ _ _ (by
          rw [hprLen]
          simp [numFieldHeaderBytes] at hencLen ⊢
          omega)]
        rw [hprLen, getD_drop]
        congr 1
        simp [numFieldHeaderBytes] at hencLen ⊢
        omega
      by_cases hnp : padLen sec.payloadLen = 17
      · have hb1 : (((sectionHeaderBytes sec.btype sec.dataSize
            sec.userStr).set 15 0).set 63 0).getD
            (padLen sec.payloadLen - 1) 0 = sec.userStr.getD 0 0 := by
          rw [hnp]
          rw [hstale_ne 16 (by omega) (by omega)]
          exact shb_getD16 sec.btype sec.dataSize sec.userStr hu
        by_cases huser : sec.userStr.getD 0 0 = nlByte
        · rw [if_pos ⟨hb0, by rw [hbLast, hb1]; exact huser⟩]
          rw [if_pos ⟨hcnt, hnp, huser⟩]
          rw [infoLoop_past gnq _ fuel _ (by
            rw [List.length_append, htLen]
            simp [numFieldHeaderBytes] at hencLen ⊢
            omega)]
          rfl
        · rw [if_neg (fun hcon => huser (by
            rw [hbLast, hb1] at hcon
            exact hcon.2))]
          rw [if_neg (by rintro ⟨-, -, hcon⟩; exact huser hcon)]
      · have hone : padLen sec.payloadLen - 1 ≠ 15 ∨
            (((sectionHeaderBytes sec.btype sec.dataSize
              sec.userStr).set 15 0).set 63 0).getD
              (padLen sec.payloadLen - 1) 0 = 0 := by
          by_cases h15 : padLen sec.payloadLen - 1 = 15
          · right
            rw [h15]
            exact hstale15
          · left
            exact h15
        have hb1ne : (((sectionHeaderBytes sec.btype sec.dataSize
            sec.userStr).set 15 0).set 63 0).getD
            (padLen sec.payloadLen - 1) 0 ≠ nlByte := by
          rcases hone with h15 | h0
          · have hrange : 1 ≤ padLen sec.payloadLen - 1 ∧
                padLen sec.payloadLen - 1 ≤ 14 := by omega
            rw [hstale_ne _ (by omega) (by omega)]
            rcases Nat.eq_or_lt_of_le hrange.1 with he1 | hgt
            · rw [← he1, shb_getD1]
              simp [spByte, nlByte]
            · have hdig := shb_getD_digit sec.btype sec.dataSize sec.userStr
                (padLen sec.payloadLen - 1) (by omega) (by omega)
              intro hcon
              have h48 := hdig.1
              rw [hcon] at h48
              simp [nlByte] at h48
          · rw [h0]
            simp [nlByte]
        rw [if_neg (fun hcon => hb1ne (by rw [← hbLast]; exact hcon.2))]
        rw [if_neg (by rintro ⟨-, hcon, -⟩; exact hnp hcon)]
    · -- truncation at or before the end of the payload: empty padding read
      have hc0 : k - (numFieldHeaderBytes + sec.payloadLen) = 0 := by
        simp [numFieldHeaderBytes]
        omega
      have hb0ne : ((padBytes sec.payloadLen).take
          (k - (numFieldHeaderBytes + sec.payloadLen))
          ++ (((sectionHeaderBytes sec.btype sec.dataSize
            sec.userStr).set 15 0).set 63 0).drop
            (k - (numFieldHeaderBytes + sec.payloadLen))).getD 0 0
          ≠ nlByte := by
        rw [hc0, List.take_zero, List.drop_zero, List.nil_append]
        rw [hstale_ne 0 (by omega) (by omega), shb_getD0]
        rcases sec_btype_cases sec with hb | hb <;> rw [hb] <;>
          simp [nlByte]
      rw [if_neg (fun hcon => hb0ne hcon.1)]
      rw [if_neg (by rintro ⟨hcon, -⟩; exact hcnt hcon)]

end P4estFile

namespace P4estFile

/-! ## Theorems: the info walker -/

theorem fileHeaderBytes_length (u : List Nat) (gnq : Nat) (hu : u.length ≤ 15) :
    (fileHeaderBytes u gnq).length = 64 := by
  simp [fileHeaderBytes, magicBytes, versionBytes]
  omega

theorem preludeBytes_length (u : List Nat) (gnq : Nat) (hu : u.length ≤ 15) :
    (preludeBytes u gnq).length = 80 := by
  simp [preludeBytes, fileHeaderBytes_length u gnq hu]

/-- The first 64 bytes of a file starting with the prelude parse back to the
    stored global quadrant count. -/
theorem checkFileMetadata_prelude (u : List Nat) (gnq : Nat) (X : List Nat)
    (hu : u.length ≤ 15) (hg : gnq < 10 ^ 16) :
    checkFileMetadata (readAt (preludeBytes u gnq ++ X) 0 numMetadataBytes)
      = some gnq := by
  have hupLen : (u ++ List.replicate (15 - u.length) spByte).length = 15 := by
    simp
    omega
  have hA4 : (magicBytes ++ [nlByte] ++ versionBytes ++ [nlByte]
      ++ (u ++ List.replicate (15 - u.length) spByte)).length = 47 := by
    rw [List.length_append, hupLen]
    decide
  have hA5 : (magicBytes ++ [nlByte] ++ versionBytes ++ [nlByte]
      ++ (u ++ List.replicate (15 - u.length) spByte) ++ [nlByte]).length
      = 48 := by
    rw [List.length_append, hA4]
    decide
  have hhdr : readAt (preludeBytes u gnq ++ X) 0 numMetadataBytes
      = fileHeaderBytes u gnq := by
    unfold readAt
    rw [List.drop_zero, preludeBytes, List.append_assoc]
    rw [show numMetadataBytes = (fileHeaderBytes u gnq).length from
      (fileHeaderBytes_length u gnq hu).symm]
    rw [List.take_left]
  rw [hhdr]
  have h7 : (fileHeaderBytes u gnq).getD 7 0 = nlByte := by
    unfold fileHeaderBytes
    rw [List.getD_append _ _ _ 7 (by rw [hA5]; omega)]
    rw [List.getD_append _ _ _ 7 (by rw [hA4]; omega)]
    rw [List.getD_append _ _ _ 7 (by decide)]
    decide
  have htake7 : (fileHeaderBytes u gnq).take 7 = magicBytes := by
    unfold fileHeaderBytes
    rw [List.take_append_of_le_length (by rw [hA5]; omega)]
    rw [List.take_append_of_le_length (by rw [hA4]; omega)]
    rw [List.take_append_of_le_length (by decide)]
    decide
  have h31 : (fileHeaderBytes u gnq).getD 31 0 = nlByte := by
    unfold fileHeaderBytes
    rw [List.getD_append _ _ _ 31 (by rw [hA5]; omega)]
    rw [List.getD_append _ _ _ 31 (by rw [hA4]; omega)]
    rw [List.getD_append _ _ _ 31 (by decide)]
    decide
  have h47 : (fileHeaderBytes u gnq).getD 47 0 = nlByte := by
    unfold fileHeaderBytes
    rw [List.getD_append _ _ _ 47 (by rw [hA5]; omega)]
    rw [List.getD_append_right _ _ _ _ hA4.le]
    rw [hA4]
    decide
  have hdig : (fileHeaderBytes u gnq).drop 48 = decDigits16 gnq := by
    unfold fileHeaderBytes
    rw [show (48 : Nat) = (magicBytes ++ [nlByte] ++ versionBytes ++ [nlByte]
      ++ (u ++ List.replicate (15 - u.length) spByte) ++ [nlByte]).length from
      hA5.symm]
    rw [List.drop_left]
  unfold checkFileMetadata
  rw [if_pos ⟨h7, htake7, h31, h47⟩]
  rw [hdig, List.take_of_length_le (decDigits16_length gnq).le]
  rw [parseAtol_decDigits16 gnq hg]

/-- p4est_file_info on a file starting with the matching prelude validates
    the file header and hands the rest of the file to the section scan. -/
theorem info_on_prelude (gnq : Nat) (u X : List Nat)
    (hu : u.length ≤ 15) (hg : gnq < 10 ^ 16) :
    p4est_file_info gnq (preludeBytes u gnq ++ X)
      = some (infoLoop gnq (preludeBytes u gnq ++ X)
          (preludeBytes u gnq ++ X).length (preludeBytes u gnq).length) := by
  have hplen := preludeBytes_length u gnq hu
  unfold p4est_file_info
  dsimp only
  rw [if_pos (by
    unfold readAt
    rw [List.drop_zero, List.length_take, List.length_append, hplen]
    simp [numMetadataBytes]
    omega)]
  rw [checkFileMetadata_prelude u gnq X hu hg]
  dsimp only
  rw [if_pos rfl]
  rw [show numMetadataBytes + byteDiv = (preludeBytes u gnq).length from by
    rw [hplen]
    decide]

/-- Each well-formed section encodes to at least 80 bytes. -/
theorem flatten_sections_length (gnq : Nat) (ss : List DataSection)
    (hwf : ∀ s0 ∈ ss, s0.wf gnq) :
    80 * ss.length ≤ ((ss.map encodeSection).flatten).length := by
  induction ss with
  | nil => simp
  | cons s rest ih =>
    have hs := encodeSection_length_ge s gnq (hwf s (by simp))
    have hr := ih (fun s0 hs0 => hwf s0 (by simp [hs0]))
    simp only [List.map_cons, List.flatten_cons, List.length_append,
      List.length_cons]
    omega

/-- p4est_file_info reports a run of complete well-formed sections and
    continues the scan on whatever follows them. -/
theorem info_run_with_tail (gnq : Nat) (u : List Nat) (ss : List DataSection)
    (rest : List Nat) (F : Nat) (hu : u.length ≤ 15) (hg : gnq < 10 ^ 16)
    (hwf : ∀ s0 ∈ ss, s0.wf gnq)
    (hF : F + ss.length = (preludeBytes u gnq
      ++ ((ss.map encodeSection).flatten ++ rest)).length) :
    p4est_file_info gnq (preludeBytes u gnq
        ++ ((ss.map encodeSection).flatten ++ rest))
      = some (ss.map DataSection.meta
          ++ infoLoop gnq (preludeBytes u gnq
              ++ ((ss.map encodeSection).flatten ++ rest)) F
            ((preludeBytes u gnq).length
              + ((ss.map encodeSection).flatten).length)) := by
  rw [info_on_prelude gnq u _ hu hg]
  rw [← hF]
  rw [infoLoop_run gnq ss rest F hwf (preludeBytes u gnq)]

end P4estFile

namespace P4estFile

/-- C7: info walker.  On a file holding the prelude followed by a run of
    complete well-formed sections, p4est_file_info succeeds and reports, in
    file order, exactly one metadata entry per written section, equal to
    what was written.  When a further trailing section is truncated, the
    scan still succeeds with all the preceding entries; the truncated entry
    is discarded except in one corner: when the cut leaves at least one
    padding byte, the padding length of the truncated section is 17 and its
    user string starts with a newline, the stale header bytes left in the
    reused read buffer make the padding check pass and the truncated
    section's entry is reported as well. -/
theorem info_walker_sections (gnq : Nat) (u : List Nat)
    (ss : List DataSection) (sec : DataSection) (k : Nat)
    (hu : u.length ≤ 15) (hg : gnq < 10 ^ 16)
    (hwf : ∀ s0 ∈ ss, s0.wf gnq) (hsec : sec.wf gnq)
    (hk : k < (encodeSection sec).length) :
    p4est_file_info gnq
        (preludeBytes u gnq ++ ((ss.map encodeSection).flatten ++ []))
      = some (ss.map DataSection.meta)
    ∧ p4est_file_info gnq
        (preludeBytes u gnq ++ ((ss.map encodeSection).flatten
          ++ (encodeSection sec).take k))
      = some (ss.map DataSection.meta
          ++ if 64 + sec.payloadLen + 1 ≤ k ∧ padLen sec.payloadLen = 17
                ∧ sec.userStr.getD 0 0 = nlByte
              then [sec.meta] else []) := by
  have hplen := preludeBytes_length u gnq hu
  have hfl := flatten_sections_length gnq ss hwf
  have htk : ((encodeSection sec).take k).length = k := by
    rw [List.length_take]
    omega
  constructor
  · rw [info_run_with_tail gnq u ss []
      ((preludeBytes u gnq ++ ((ss.map encodeSection).flatten ++ [])).length
        - ss.length) hu hg hwf (by
        rw [List.length_append, List.length_append, List.length_nil, hplen]
        omega)]
    rw [infoLoop_past gnq _ _ _ (by
      rw [List.length_append, List.length_append, List.length_nil, hplen]
      omega)]
    rw [List.append_nil]
  · rw [info_run_with_tail gnq u ss ((encodeSection sec).take k)
      (((preludeBytes u gnq ++ ((ss.map encodeSection).flatten
        ++ (encodeSection sec).take k)).length - ss.length - 1) + 1)
      hu hg hwf (by
        rw [List.length_append, List.length_append, hplen, htk]
        omega)]
    rw [show preludeBytes u gnq ++ ((ss.map encodeSection).flatten
        ++ (encodeSection sec).take k)
      = (preludeBytes u gnq ++ (ss.map encodeSection).flatten)
        ++ (encodeSection sec).take k from by rw [List.append_assoc]]
    rw [show (preludeBytes u gnq).length
        + ((ss.map encodeSection).flatten).length
      = (preludeBytes u gnq ++ (ss.map encodeSection).flatten).length from
      (List.length_append _ _).symm]
    rw [infoLoop_truncated gnq sec
      (preludeBytes u gnq ++ (ss.map encodeSection).flatten) _ k hsec hk]

set_option maxRecDepth 20000 in
/-- A truncated trailing section that p4est_file_info keeps instead of
    discarding: a 15-byte H section whose user string starts with a newline,
    cut one byte into its 17-byte padding.  The scan reports the truncated
    section's metadata entry, refuting the discard clause. -/
theorem info_walker_truncated_kept :
    p4est_file_info 0 (preludeBytes [] 0
        ++ (encodeSection (DataSection.hblock (List.replicate 15 1)
            (nlByte :: List.replicate 46 spByte))).take 80)
      = some [SectionMeta.mk 72 15 (nlByte :: List.replicate 46 spByte)] := by
  rfl

theorem info_walker_sections_witness :
    p4est_file_info 0 (preludeBytes [] 0
        ++ ((([] : List DataSection).map encodeSection).flatten ++ []))
      = some (([] : List DataSection).map DataSection.meta) :=
  (info_walker_sections 0 [] []
    (DataSection.hblock [1] (List.replicate 47 spByte)) 0 (by decide)
    (by decide) (fun s0 hs0 => absurd hs0 (List.not_mem_nil s0))
    (by decide) (by decide)).1

end P4estFile
